import Mathlib

/-!
Verification of the trend-analysis subsystem of the Arduino-Back repository.

Python strings are modelled as `List Char`, Python numbers (ints and floats)
as exact rationals, JSON numbers as a mantissa/fraction-length pair so that
`json.dumps` / `json.loads` round-trips are exact, and raisable Python code as
`Except`-valued functions.  Every definition mirrors the corresponding code in
`src/main.py` or `src/logic.py`.
-/

namespace ArduinoBack

/-- The characters `{` and `}` used by the JSON machinery. -/
def lbrace : Char := '\x7b'

def rbrace : Char := '\x7d'

/-- Convert a Lean string literal to the `List Char` representation used for
Python strings throughout this development. -/
def chars (s : String) : List Char := s.data

/-- JSON whitespace as accepted by Python's `json` module between tokens. -/
def isWsChar (c : Char) : Bool := c = ' ' || c = '\t' || c = '\n' || c = '\r'

/-- Skip JSON whitespace. -/
def skipWs : List Char → List Char := List.dropWhile isWsChar

/-- Python `str.strip()`: remove leading and trailing whitespace. -/
def pyStrip (l : List Char) : List Char :=
  ((l.dropWhile (fun c => c.isWhitespace)).reverse.dropWhile
    (fun c => c.isWhitespace)).reverse

/-- Strict lexicographic comparison on character lists, used to model SQL
`ORDER BY` on the ISO-8601 timestamp strings. -/
def lexLt : List Char → List Char → Bool
  | [], [] => false
  | [], _ :: _ => true
  | _ :: _, [] => false
  | a :: as, b :: bs => if a < b then true else if a = b then lexLt as bs else false

/-- A JSON number: `m / 10 ^ e`, remembering how many fractional digits were
written.  `⟨5, 0⟩` models the Python int `5`; `⟨125, 1⟩` models the float
`12.5`; `⟨100, 1⟩` models the float `10.0`.  Keeping the spelling makes
`json.loads (json.dumps x) = x` an exact statement. -/
structure JNum where
  m : Int
  e : Nat
deriving DecidableEq

/-- The value of a JSON number as an exact rational. -/
def JNum.toRat (n : JNum) : Rat := (n.m : Rat) / (10 : Rat) ^ n.e

mutual
/-- A JSON value as produced by Python's `json.loads` (and, for the pipeline
of this repository, any Python value flowing through the analysis dicts). -/
inductive JsonVal where
  | null : JsonVal
  | bool (b : Bool) : JsonVal
  | num (n : JNum) : JsonVal
  | str (s : List Char) : JsonVal
  | arr (xs : JList) : JsonVal
  | obj (kvs : JObj) : JsonVal

/-- A list of JSON values (the payload of a JSON array). -/
inductive JList where
  | nil : JList
  | cons (v : JsonVal) (tl : JList) : JList

/-- The ordered key/value pairs of a JSON object; later bindings of the same
key shadow earlier ones, as in a Python dict built by `json.loads`. -/
inductive JObj where
  | nil : JObj
  | cons (k : List Char) (v : JsonVal) (tl : JObj) : JObj
end

mutual
def JsonVal.beq : JsonVal → JsonVal → Bool
  | .null, .null => true
  | .bool a, .bool b => a = b
  | .num a, .num b => a = b
  | .str a, .str b => a = b
  | .arr a, .arr b => JList.beq a b
  | .obj a, .obj b => JObj.beq a b
  | _, _ => false

def JList.beq : JList → JList → Bool
  | .nil, .nil => true
  | .cons x xs, .cons y ys => JsonVal.beq x y && JList.beq xs ys
  | _, _ => false

def JObj.beq : JObj → JObj → Bool
  | .nil, .nil => true
  | .cons k v tl, .cons k' v' tl' => k = k' && JsonVal.beq v v' && JObj.beq tl tl'
  | _, _ => false
end

mutual
theorem JsonVal.beqV_iff : ∀ a b : JsonVal, JsonVal.beq a b = true ↔ a = b
  | .null, .null | .bool _, .bool _ | .num _, .num _ | .str _, .str _ => by
      simp [JsonVal.beq]
  | .arr x, .arr y => by simp [JsonVal.beq, JList.beqL_iff x y]
  | .obj x, .obj y => by simp [JsonVal.beq, JObj.beqO_iff x y]
  | .null, .bool _ | .null, .num _ | .null, .str _ | .null, .arr _ | .null, .obj _
  | .bool _, .null | .bool _, .num _ | .bool _, .str _ | .bool _, .arr _
  | .bool _, .obj _
  | .num _, .null | .num _, .bool _ | .num _, .str _ | .num _, .arr _
  | .num _, .obj _
  | .str _, .null | .str _, .bool _ | .str _, .num _ | .str _, .arr _
  | .str _, .obj _
  | .arr _, .null | .arr _, .bool _ | .arr _, .num _ | .arr _, .str _
  | .arr _, .obj _
  | .obj _, .null | .obj _, .bool _ | .obj _, .num _ | .obj _, .str _
  | .obj _, .arr _ => by simp [JsonVal.beq]

theorem JList.beqL_iff : ∀ a b : JList, JList.beq a b = true ↔ a = b
  | .nil, .nil => by simp [JList.beq]
  | .nil, .cons _ _ => by simp [JList.beq]
  | .cons _ _, .nil => by simp [JList.beq]
  | .cons x xs, .cons y ys => by
      simp [JList.beq, JsonVal.beqV_iff x y, JList.beqL_iff xs ys]

theorem JObj.beqO_iff : ∀ a b : JObj, JObj.beq a b = true ↔ a = b
  | .nil, .nil => by simp [JObj.beq]
  | .nil, .cons _ _ _ => by simp [JObj.beq]
  | .cons _ _ _, .nil => by simp [JObj.beq]
  | .cons k v tl, .cons k' v' tl' => by
      simp [JObj.beq, JsonVal.beqV_iff v v', JObj.beqO_iff tl tl', and_assoc]
end

instance : DecidableEq JsonVal := fun a b =>
  decidable_of_iff _ (JsonVal.beqV_iff a b)

instance : DecidableEq JList := fun a b =>
  decidable_of_iff _ (JList.beqL_iff a b)

instance : DecidableEq JObj := fun a b =>
  decidable_of_iff _ (JObj.beqO_iff a b)

/-- Lookup in a parsed JSON object, later bindings shadowing earlier ones,
exactly as repeated keys behave in the Python dict `json.loads` builds. -/
def pyGet : JObj → List Char → Option JsonVal
  | .nil, _ => none
  | .cons k v tl, key =>
    match pyGet tl key with
    | some w => some w
    | none => if k = key then some v else none

/-! ### Serialization: the model of Python `json.dumps` (default options:
`ensure_ascii=True`, separators `", "` and `": "`). -/

/-- The character for a decimal digit `d < 10`. -/
def digitChar (d : Nat) : Char := Char.ofNat (48 + d)

/-- Decimal digits of a natural number, most significant first. -/
def natChars (n : Nat) : List Char :=
  if n = 0 then ['0'] else ((Nat.digits 10 n).map digitChar).reverse

/-- The character for a hexadecimal digit `d < 16` (lowercase, as Python's
`json.dumps` emits in `\uXXXX` escapes). -/
def hexChar (d : Nat) : Char := Char.ofNat (if d < 10 then 48 + d else 87 + d)

/-- Four hexadecimal digits of `n < 0x10000`, most significant first. -/
def hex4 (n : Nat) : List Char :=
  [hexChar (n / 4096 % 16), hexChar (n / 256 % 16), hexChar (n / 16 % 16),
   hexChar (n % 16)]

/-- The short escapes of Python's JSON encoder. -/
def shortEsc (c : Char) : Option Char :=
  if c = '"' then some '"'
  else if c = '\\' then some '\\'
  else if c = '\x08' then some 'b'
  else if c = '\x0c' then some 'f'
  else if c = '\n' then some 'n'
  else if c = '\r' then some 'r'
  else if c = '\t' then some 't'
  else none

/-- Encode one character the way `json.dumps` (with `ensure_ascii=True`)
writes it inside a string literal: short escapes, printable ASCII verbatim,
everything else as `\uXXXX`, astral characters as a surrogate pair. -/
def escChar (c : Char) : List Char :=
  match shortEsc c with
  | some e => ['\\', e]
  | none =>
    if c.toNat < 0x20 ∨ 0x7e < c.toNat then
      if c.toNat < 0x10000 then '\\' :: 'u' :: hex4 c.toNat
      else
        let v := c.toNat - 0x10000
        ('\\' :: 'u' :: hex4 (0xd800 + v / 0x400)) ++
          ('\\' :: 'u' :: hex4 (0xdc00 + v % 0x400))
    else [c]

/-- A JSON string literal: quotes around the escaped body. -/
def dumpStr (s : List Char) : List Char := '"' :: s.flatMap escChar ++ ['"']

/-- Print a JSON number: the integer spelling when `e = 0`, otherwise the
digits with a decimal point `e` places from the right (zero-padded), matching
how Python prints the ints and floats this models. -/
def dumpNum (n : JNum) : List Char :=
  let sign : List Char := if n.m < 0 then ['-'] else []
  let ds := natChars n.m.natAbs
  if n.e = 0 then sign ++ ds
  else
    let ds' := List.replicate (n.e + 1 - ds.length) '0' ++ ds
    sign ++ (ds'.take (ds'.length - n.e) ++ '.' :: ds'.drop (ds'.length - n.e))

mutual
/-- The model of `json.dumps` with Python's default separators. -/
def dumpV : JsonVal → List Char
  | .null => chars "null"
  | .bool true => chars "true"
  | .bool false => chars "false"
  | .num n => dumpNum n
  | .str s => dumpStr s
  | .arr .nil => ['[', ']']
  | .arr (.cons x tl) => '[' :: (dumpItems x tl ++ [']'])
  | .obj .nil => [lbrace, rbrace]
  | .obj (.cons k v tl) => lbrace :: (dumpPairs k v tl ++ [rbrace])
termination_by v => sizeOf v

/-- The comma-joined items of a nonempty array. -/
def dumpItems : JsonVal → JList → List Char
  | x, .nil => dumpV x
  | x, .cons y tl => dumpV x ++ ',' :: ' ' :: dumpItems y tl
termination_by x tl => sizeOf x + sizeOf tl

/-- The comma-joined `"key": value` pairs of a nonempty object. -/
def dumpPairs : List Char → JsonVal → JObj → List Char
  | k, v, .nil => dumpStr k ++ ':' :: ' ' :: dumpV v
  | k, v, .cons k' v' tl =>
    dumpStr k ++ ':' :: ' ' :: dumpV v ++ ',' :: ' ' :: dumpPairs k' v' tl
termination_by _ v tl => sizeOf v + sizeOf tl
end

/-! ### Parsing: the model of Python `json.loads`. -/

/-- Value of one hexadecimal digit character (either case). -/
def hexVal (c : Char) : Option Nat :=
  if '0' ≤ c ∧ c ≤ '9' then some (c.toNat - 48)
  else if 'a' ≤ c ∧ c ≤ 'f' then some (c.toNat - 87)
  else if 'A' ≤ c ∧ c ≤ 'F' then some (c.toNat - 55)
  else none

/-- Value of a four-digit hexadecimal escape. -/
def hex4Val (a b c d : Char) : Option Nat :=
  match hexVal a, hexVal b, hexVal c, hexVal d with
  | some x, some y, some z, some w => some (((x * 16 + y) * 16 + z) * 16 + w)
  | _, _, _, _ => none

/-- The escapes accepted after a backslash in a JSON string. -/
def unescChar (c : Char) : Option Char :=
  if c = '"' then some '"'
  else if c = '\\' then some '\\'
  else if c = '/' then some '/'
  else if c = 'b' then some '\x08'
  else if c = 'f' then some '\x0c'
  else if c = 'n' then some '\n'
  else if c = 'r' then some '\r'
  else if c = 't' then some '\t'
  else none

mutual
/-- Parse the body of a JSON string after the opening quote, decoding escapes
and recombining surrogate pairs as Python's decoder does; returns the decoded
characters and the input after the closing quote. -/
def parseStrB : List Char → Option (List Char × List Char)
  | [] => none
  | c :: r =>
    if c = '"' then some ([], r)
    else if c = '\\' then parseEscape r
    else (parseStrB r).map (fun p => (c :: p.1, p.2))

/-- Parse what follows a backslash inside a JSON string. -/
def parseEscape : List Char → Option (List Char × List Char)
  | [] => none
  | e :: r =>
    if e = 'u' then parseHexEsc r
    else
      match unescChar e with
      | none => none
      | some c => (parseStrB r).map (fun p => (c :: p.1, p.2))

/-- Parse the four hex digits of a `\uXXXX` escape, joining a following low
surrogate onto a high one as Python's decoder does. -/
def parseHexEsc : List Char → Option (List Char × List Char)
  | a :: b :: c :: d :: r =>
    (hex4Val a b c d).bind (fun n =>
      if 0xd800 ≤ n ∧ n < 0xdc00 then parseLowSurr n r
      else if 0xdc00 ≤ n ∧ n < 0xe000 then none
      else (parseStrB r).map (fun p => (Char.ofNat n :: p.1, p.2)))
  | _ => none

/-- Parse the low half of a surrogate pair after a high `\uXXXX` escape. -/
def parseLowSurr (n : Nat) : List Char → Option (List Char × List Char)
  | '\\' :: 'u' :: a2 :: b2 :: c2 :: d2 :: r2 =>
    (hex4Val a2 b2 c2 d2).bind (fun n2 =>
      if 0xdc00 ≤ n2 ∧ n2 < 0xe000 then
        (parseStrB r2).map (fun p =>
          (Char.ofNat (0x10000 + (n - 0xd800) * 0x400 + (n2 - 0xdc00)) :: p.1, p.2))
      else none)
  | _ => none
end

/-- Split a run of decimal digits off the front of the input. -/
def splitDigits (l : List Char) : List Char × List Char :=
  (l.takeWhile Char.isDigit, l.dropWhile Char.isDigit)

/-- Value of a big-endian digit string. -/
def digitsToNat (ds : List Char) : Nat :=
  ds.foldl (fun a c => 10 * a + (c.toNat - 48)) 0

/-- JSON's strict integer-part grammar: nonempty, no leading zero except for
`0` itself. -/
def intDigitsOk : List Char → Bool
  | [] => false
  | c :: tl => if c = '0' then tl.isEmpty else true

/-- Parse an optional fraction part; a dot must be followed by digits. -/
def parseFrac : List Char → Option (List Char × List Char)
  | [] => some ([], [])
  | c :: r =>
    if c = '.' then
      let p := splitDigits r
      if p.1 = [] then none else some p
    else some ([], c :: r)

/-- Parse the sign of an exponent. -/
def parseExpSign : List Char → Bool × List Char
  | [] => (false, [])
  | c :: r =>
    if c = '+' then (false, r) else if c = '-' then (true, r) else (false, c :: r)

/-- Parse the digits of an exponent after `e`/`E`. -/
def parseExpTail (r : List Char) : Option (Int × List Char) :=
  let p := parseExpSign r
  let q := splitDigits p.2
  if q.1 = [] then none
  else some (if p.1 then -(digitsToNat q.1 : Int) else (digitsToNat q.1 : Int), q.2)

/-- Parse an optional exponent part. -/
def parseExp : List Char → Option (Int × List Char)
  | [] => some (0, [])
  | c :: r =>
    if c = 'e' ∨ c = 'E' then parseExpTail r else some (0, c :: r)

/-- Assemble a `JNum` from sign, integer digits, fraction digits and
exponent, folding the exponent into the fraction length. -/
def mkJNum (neg : Bool) (ids fds : List Char) (ex : Int) : JNum :=
  let m0 : Nat := digitsToNat ids * 10 ^ fds.length + digitsToNat fds
  let mi : Int := if neg then -(m0 : Int) else (m0 : Int)
  let e0 : Int := (fds.length : Int) - ex
  if e0 ≤ 0 then ⟨mi * 10 ^ (-e0).toNat, 0⟩ else ⟨mi, e0.toNat⟩

/-- Parse a leading minus sign. -/
def parseNumSign : List Char → Bool × List Char
  | [] => (false, [])
  | c :: r => if c = '-' then (true, r) else (false, c :: r)

/-- The digits/fraction/exponent part of a JSON number after the sign. -/
def parseNumBody (neg : Bool) (cs : List Char) : Option (JsonVal × List Char) :=
  let q := splitDigits cs
  if intDigitsOk q.1 then
    match parseFrac q.2 with
    | none => none
    | some (fds, r2) =>
      match parseExp r2 with
      | none => none
      | some (ex, r3) => some (.num (mkJNum neg q.1 fds ex), r3)
  else none

/-- Parse a JSON number token. -/
def parseNum (cs : List Char) : Option (JsonVal × List Char) :=
  let p := parseNumSign cs
  parseNumBody p.1 p.2

mutual
/-- Parse one JSON value; `fuel` bounds the nesting recursion (the top level
supplies more fuel than any input can consume). -/
def parseVal : Nat → List Char → Option (JsonVal × List Char)
  | 0, _ => none
  | fuel + 1, cs =>
    match skipWs cs with
    | '\x7b' :: r =>
      (match skipWs r with
       | '\x7d' :: r' => some (.obj .nil, r')
       | r' => (parsePairs fuel r').map (fun p => (.obj p.1, p.2)))
    | '[' :: r =>
      (match skipWs r with
       | ']' :: r' => some (.arr .nil, r')
       | r' => (parseItems fuel r').map (fun p => (.arr p.1, p.2)))
    | '"' :: r => (parseStrB r).map (fun p => (.str p.1, p.2))
    | 't' :: 'r' :: 'u' :: 'e' :: rest => some (.bool true, rest)
    | 'f' :: 'a' :: 'l' :: 's' :: 'e' :: rest => some (.bool false, rest)
    | 'n' :: 'u' :: 'l' :: 'l' :: rest => some (.null, rest)
    | c :: r => if c = '-' ∨ c.isDigit then parseNum (c :: r) else none
    | [] => none

/-- Parse the elements of a nonempty array up to the closing bracket. -/
def parseItems : Nat → List Char → Option (JList × List Char)
  | 0, _ => none
  | fuel + 1, cs =>
    match parseVal fuel cs with
    | none => none
    | some (v, r) =>
      match skipWs r with
      | ',' :: r2 =>
        (match parseItems fuel r2 with
         | none => none
         | some (vs, r3) => some (.cons v vs, r3))
      | ']' :: r2 => some (.cons v .nil, r2)
      | _ => none

/-- Parse the members of a nonempty object up to the closing brace. -/
def parsePairs : Nat → List Char → Option (JObj × List Char)
  | 0, _ => none
  | fuel + 1, cs =>
    match skipWs cs with
    | '"' :: r =>
      (match parseStrB r with
       | none => none
       | some (k, r2) =>
         match skipWs r2 with
         | ':' :: r3 =>
           (match parseVal fuel r3 with
            | none => none
            | some (v, r4) =>
              match skipWs r4 with
              | ',' :: r5 =>
                (match parsePairs fuel r5 with
                 | none => none
                 | some (kvs, r6) => some (.cons k v kvs, r6))
              | '\x7d' :: r5 => some (.cons k v .nil, r5)
              | _ => none)
         | _ => none)
    | _ => none
end

/-- The model of `json.loads`: parse one value and require only whitespace to
remain (Python raises `Extra data` otherwise). -/
def jsonLoads (cs : List Char) : Option JsonVal :=
  match parseVal (2 * cs.length + 2) cs with
  | some (v, rest) => if skipWs rest = [] then some v else none
  | none => none

/-- `json.loads` followed by Python attribute access on the result as a dict:
fails when the text is not valid JSON (a `JSONDecodeError`) and, for the code
modelled here, a non-object result behaves the same because `.get` on it
raises; both are absorbed by the same handler in the source. -/
def jsonLoadsObj (cs : List Char) : Option JObj :=
  match jsonLoads cs with
  | some (.obj kvs) => some kvs
  | _ => none

/-! ### Python `float()` coercion. -/

/-- `float()` applied to a numeric string: optional sign, digits with an
optional fraction (at least one digit overall), an optional exponent, and
nothing else; surrounding whitespace is stripped.  (The exotic `inf`/`nan`
spellings and digit underscores are outside the behaviour this repository
exercises and are not modelled.) -/
def pyFloatStr (s : List Char) : Option Rat :=
  let t := pyStrip s
  let p : Bool × List Char :=
    match t with
    | '-' :: r => (true, r)
    | '+' :: r => (false, r)
    | t' => (false, t')
  let q := splitDigits p.2
  let fr : List Char × List Char :=
    match q.2 with
    | '.' :: r' => splitDigits r'
    | u => ([], u)
  if q.1 = [] ∧ fr.1 = [] then none
  else
    match parseExp fr.2 with
    | none => none
    | some (ex, r3) =>
      if r3 = [] then some (mkJNum p.1 q.1 fr.1 ex).toRat else none

/-- Python `float(v)` on a value read out of parsed JSON: exact on numbers,
`True`/`False` become `1`/`0`, numeric strings are parsed, and `None`, lists
and dicts raise a `TypeError` (modelled as `none`). -/
def pyFloat : JsonVal → Option Rat
  | .num n => some n.toRat
  | .bool b => some (if b then 1 else 0)
  | .str s => pyFloatStr s
  | _ => none

/-! ### The Response Interpreter: the parsing stage of
`ReasoningSystem.generate_reasoned_response` (src/main.py lines 92-125). -/

/-- A Python exception class relevant to the modelled code. -/
inductive PyErr where
  | jsonDecode : PyErr
  | typeErr : PyErr
deriving DecidableEq

/-- The interpreted analysis dict: the four keys
`tendencia`/`probabilidad_fuga`/`recomendacion`/`detalles` that every result
of the parsing stage carries (`probabilidad_fuga` is always a Python float
after the `float(...)` coercion, the other values arbitrary). -/
structure Analisis where
  tendencia : JsonVal
  probabilidad_fuga : Rat
  recomendacion : JsonVal
  detalles : JsonVal
deriving DecidableEq

/-- `response_text[json_start:json_end]` when `json_start >= 0 and
json_end > json_start`, with `json_start = text.find(chr(123))` and
`json_end = text.rfind(chr(125)) + 1`; `none` when the test fails. -/
def jsonCandidate (rt : List Char) : Option (List Char) :=
  match rt.findIdx? (· == lbrace), rt.reverse.findIdx? (· == rbrace) with
  | some i, some rj =>
    let j := rt.length - 1 - rj
    if i < j + 1 then some ((rt.drop i).take (j + 1 - i)) else none
  | _, _ => none

/-- `ReasoningSystem._create_fallback_analysis` (src/main.py lines 162-169). -/
def create_fallback_analysis (text : List Char) : Analisis :=
  { tendencia := .str (chars "análisis incompleto")
    probabilidad_fuga := 0
    recomendacion := .str (chars "Se recomienda revisar manualmente los datos")
    detalles := .obj (.cons (chars "respuesta_original")
      (.str (text.take 500 ++ chars "...")) .nil) }

/-- The body of the inner `try` of `generate_reasoned_response` (src/main.py
lines 92-113): strip, locate the brace-delimited candidate, `json.loads` it
(raising on failure), and read the four fields with `.get` defaults, the
`float(...)` coercion raising on a non-coercible value.  The `else` branch
(no candidate) returns the fallback built from the *stripped* text without
raising. -/
def parse_stage (text : List Char) : Except PyErr Analisis :=
  let rt := pyStrip text
  match jsonCandidate rt with
  | none => .ok (create_fallback_analysis rt)
  | some jt =>
    match jsonLoadsObj jt with
    | none => .error .jsonDecode
    | some result =>
      match pyFloat ((pyGet result (chars "probabilidad_fuga")).getD (.num ⟨0, 0⟩)) with
      | none => .error .typeErr
      | some q =>
        .ok { tendencia := (pyGet result (chars "tendencia")).getD (.str (chars "desconocida"))
              probabilidad_fuga := q
              recomendacion := (pyGet result (chars "recomendacion")).getD
                (.str (chars "No hay recomendaciones disponibles"))
              detalles := (pyGet result (chars "detalles")).getD (.obj .nil) }

/-- The parsing stage with its `except Exception` handler (src/main.py lines
114-116): any exception raised while locating, parsing or reading the JSON
candidate is absorbed into the fallback built from the *original* response
text. -/
def interpret_response (text : List Char) : Analisis :=
  match parse_stage text with
  | .ok a => a
  | .error _ => create_fallback_analysis text

/-! ### The `DatabaseManager` of src/main.py: tables as lists of rows, the
trigger counters as fields, SQL `ORDER BY fecha DESC LIMIT ? OFFSET ?` as an
insertion sort on the timestamp string. -/

/-- A row of the `flujo_registros` table (also its dict representation from
`obtener_historial`, which has the same four fields). -/
structure Registro where
  id : Nat
  flujo : Rat
  timestamp : List Char
  analisis : Option (List Char)
deriving DecidableEq

/-- A row of the `tendencias` table.  `tendencia` and `recomendacion` hold
whatever Python value the analysis dict carried; `detalles` holds the
`json.dumps` serialization (`none` models a SQL NULL in a legacy row). -/
structure TendRow where
  id : Nat
  fecha : List Char
  periodo : List Char
  tendencia : JsonVal
  recomendacion : JsonVal
  probabilidad_fuga : Rat
  detalles : Option (List Char)
deriving DecidableEq

/-- The persistent and in-memory state of `DatabaseManager` (src/main.py
lines 173-179): the two tables the core writes, plus the trigger counters. -/
structure DBState where
  registros : List Registro
  tendencias : List TendRow
  records_since_last_analysis : Nat
  pending_analysis : Bool
deriving DecidableEq

/-- `self.analysis_threshold = 5` (src/main.py line 179). -/
def analysisThreshold : Nat := 5

/-- A fresh `DatabaseManager`: empty tables, counter 0, no pending flag. -/
def initialDB : DBState := ⟨[], [], 0, false⟩

/-- The dict returned by `guardar_flujo`. -/
structure RegResult where
  id : Nat
  flujo : Rat
  timestamp : List Char
  analisis : Option (List Char)
  pending_analysis : Bool
deriving DecidableEq

/-- `DatabaseManager.guardar_flujo` (src/main.py lines 227-257): insert the
reading, increment the counter, and set the pending flag once the counter
reaches the threshold. -/
def guardar_flujo (s : DBState) (flujo : Rat) (ts : List Char)
    (analisis : Option (List Char)) : DBState × RegResult :=
  let reg : Registro := ⟨s.registros.length + 1, flujo, ts, analisis⟩
  let cnt := s.records_since_last_analysis + 1
  let pend := if analysisThreshold ≤ cnt then true else s.pending_analysis
  ({ s with registros := s.registros ++ [reg]
            records_since_last_analysis := cnt
            pending_analysis := pend },
   ⟨reg.id, flujo, ts, analisis, pend⟩)

/-- `DatabaseManager.necesita_analisis` (src/main.py lines 426-428). -/
def necesita_analisis (s : DBState) : Bool := s.pending_analysis

/-- Descending insertion by a string key: the model of SQL `ORDER BY key
DESC` (an element is placed before the first element it is not less than). -/
def insertDescBy {α : Type} (key : α → List Char) (x : α) : List α → List α
  | [] => [x]
  | y :: tl =>
    if lexLt (key x) (key y) then y :: insertDescBy key x tl else x :: y :: tl

/-- Sort rows in descending key order. -/
def sortDescBy {α : Type} (key : α → List Char) : List α → List α
  | [] => []
  | x :: tl => insertDescBy key x (sortDescBy key tl)

/-- `DatabaseManager.obtener_historial` (src/main.py lines 259-280):
`ORDER BY timestamp DESC LIMIT limite OFFSET offset`. -/
def obtener_historial (s : DBState) (limite offset : Nat) : List Registro :=
  ((sortDescBy (fun r => r.timestamp) s.registros).drop offset).take limite

/-- `DatabaseManager.guardar_analisis_tendencia` (src/main.py lines
363-393): insert the row (details serialized with `json.dumps`), then
unconditionally reset the counter and pending flag.  The analysis dicts the
pipeline passes here always carry the four interpreter fields (claim C1), so
the row fields are read from an `Analisis`; `periodo` is the one key the code
may find absent, defaulted as in the source. -/
def guardar_analisis_tendencia (s : DBState) (a : Analisis)
    (periodo : Option (List Char)) (ts : List Char) : DBState × Nat :=
  let row : TendRow :=
    { id := s.tendencias.length + 1
      fecha := ts
      periodo := periodo.getD (chars "últimas 24 horas")
      tendencia := a.tendencia
      recomendacion := a.recomendacion
      probabilidad_fuga := a.probabilidad_fuga
      detalles := some (dumpV a.detalles) }
  ({ s with tendencias := s.tendencias ++ [row]
            records_since_last_analysis := 0
            pending_analysis := false },
   s.tendencias.length + 1)

/-- The dict built for each row by `obtener_ultimas_tendencias`. -/
structure TendDict where
  id : Nat
  fecha : List Char
  periodo : List Char
  tendencia : JsonVal
  recomendacion : JsonVal
  probabilidad_fuga : Rat
  detalles : JsonVal
deriving DecidableEq

/-- `json.loads(t[6]) if t[6] else {}` (src/main.py line 421): a NULL or
empty stored payload reads as the empty dict; a malformed non-empty payload
would raise (`.error`), which the read path does not catch. -/
def decodeDetalles : Option (List Char) → Except PyErr JsonVal
  | none => .ok (.obj .nil)
  | some [] => .ok (.obj .nil)
  | some (c :: cs) =>
    match jsonLoads (c :: cs) with
    | some v => .ok v
    | none => .error .jsonDecode

/-- Decode a list of rows into result dicts, propagating the first failure. -/
def decodeRows : List TendRow → Except PyErr (List TendDict)
  | [] => .ok []
  | r :: tl =>
    match decodeDetalles r.detalles with
    | .error e => .error e
    | .ok d =>
      match decodeRows tl with
      | .error e => .error e
      | .ok rest =>
        .ok (⟨r.id, r.fecha, r.periodo, r.tendencia, r.recomendacion,
              r.probabilidad_fuga, d⟩ :: rest)

/-- `DatabaseManager.obtener_ultimas_tendencias` (src/main.py lines
395-424): `ORDER BY fecha DESC LIMIT limite`, decoding each row's details. -/
def obtener_ultimas_tendencias (s : DBState) (limite : Nat) :
    Except PyErr (List TendDict) :=
  decodeRows ((sortDescBy (fun t => t.fecha) s.tendencias).take limite)

/-! ### The orchestration of src/main.py: `analizar_datos_flujo` (lines
437-492), its query construction, and the prompt builder. -/

/-- Python `str()` of a float value (decimal expansion, capped like the
17-significant-digit repr; the exact tail beyond the claims' reach). -/
def fracDigitsAux : Nat → Nat → Nat → List Char
  | 0, _, _ => []
  | _ + 1, 0, _ => []
  | fuel + 1, num, den => digitChar (num * 10 / den) :: fracDigitsAux fuel (num * 10 % den) den

/-- Python `str()` of the float `q`, as interpolated by an f-string. -/
def pyFloatRepr (q : Rat) : List Char :=
  let sgn : List Char := if q < 0 then ['-'] else []
  let n := q.num.natAbs
  let d := q.den
  sgn ++ natChars (n / d) ++ '.' ::
    (if n % d = 0 then ['0'] else fracDigitsAux 17 (n % d) d)

/-- Round to the nearest integer, ties to even: the rounding of Python's
`format(x, '.2f')` scaled by 100. -/
def roundHalfEven (q : Rat) : Int :=
  let fl := ⌊q⌋
  let r := q - fl
  if r < 1 / 2 then fl
  else if 1 / 2 < r then fl + 1
  else if fl % 2 = 0 then fl else fl + 1

/-- Python `f"{q:.2f}"`: the value rounded to two decimals, printed with
exactly two fractional digits. -/
def fmt2 (q : Rat) : List Char :=
  let n := roundHalfEven (q * 100)
  let sgn : List Char := if q < 0 then ['-'] else []
  let a := n.natAbs
  sgn ++ natChars (a / 100) ++ '.' :: digitChar (a / 10 % 10) :: [digitChar (a % 10)]

/-- One line of the raw listing:
`f"ID: {r['id']}, Flujo: {r['flujo']}%, Timestamp: {r['timestamp']}"`. -/
def format_registro (r : Registro) : List Char :=
  chars "ID: " ++ natChars r.id ++ chars ", Flujo: " ++ pyFloatRepr r.flujo ++
    chars "%, Timestamp: " ++ r.timestamp

/-- Python `"\n".join(...)`. -/
def join_lines : List (List Char) → List Char
  | [] => []
  | [x] => x
  | x :: y :: tl => x ++ '\n' :: join_lines (y :: tl)

/-- `datos_formateados` (src/main.py lines 452-457). -/
def datos_formateados (registros : List Registro) : List Char :=
  join_lines ((registros.take 50).map format_registro)

/-- Python `sum`. -/
def listSum (l : List Rat) : Rat := l.foldl (· + ·) 0

/-- Python `max` on a nonempty list. -/
def listMax : List Rat → Rat
  | [] => 0
  | x :: tl => tl.foldl max x

/-- Python `min` on a nonempty list. -/
def listMin : List Rat → Rat
  | [] => 0
  | x :: tl => tl.foldl min x

/-- `flujos = [r["flujo"] for r in registros[:50]]` (src/main.py line 460). -/
def flujos_of (registros : List Registro) : List Rat :=
  (registros.take 50).map (fun r => r.flujo)

/-- `stats["promedio"]` (src/main.py line 462). -/
def stats_promedio (registros : List Registro) : Rat :=
  let flujos := flujos_of registros
  if flujos = [] then 0 else listSum flujos / (flujos.length : Rat)

/-- `stats["maximo"]` (src/main.py line 463). -/
def stats_maximo (registros : List Registro) : Rat :=
  let flujos := flujos_of registros
  if flujos = [] then 0 else listMax flujos

/-- `stats["minimo"]` (src/main.py line 464). -/
def stats_minimo (registros : List Registro) : Rat :=
  let flujos := flujos_of registros
  if flujos = [] then 0 else listMin flujos

/-- The `query` f-string of `analizar_datos_flujo` (src/main.py lines
469-480): the two-decimal statistics, the record count, and the raw listing
capped at its first 10 characters. -/
def build_query (registros : List Registro) : List Char :=
  chars "\n    Análisis de datos de flujo de agua:\n    \n    Estadísticas:\n    - Promedio: " ++
    fmt2 (stats_promedio registros) ++
    chars "%\n    - Máximo: " ++ fmt2 (stats_maximo registros) ++
    chars "%\n    - Mínimo: " ++ fmt2 (stats_minimo registros) ++
    chars "%\n    - Total registros: " ++ natChars registros.length ++
    chars "\n    \n    Últimos 10 registros:\n    " ++
    (datos_formateados registros).take 10 ++ chars "\n    "

/-- `ReasoningSystem._create_prompt_for_flow_analysis` (src/main.py lines
127-160): the template around `{data}`, with the doubled braces of the
Python f-string appearing as literal braces. -/
def create_prompt_for_flow_analysis (data : List Char) : List Char :=
  chars "\n        # Análisis de Datos de Flujo de Agua\n        \n        Analiza los siguientes datos de flujo de agua y proporciona una evaluación detallada.\n        \n        ## Datos\n        ```\n        " ++
    data ++
    chars "\n        ```\n        \n        ## Instrucciones\n        Realiza un análisis completo siguiendo estos pasos:\n        \n        1. Identifica patrones en los datos de flujo (estables, ascendentes, descendentes, fluctuantes)\n        2. Detecta anomalías que puedan indicar fugas o problemas\n        3. Evalúa la probabilidad de una fuga basada en los patrones\n        4. Proporciona recomendaciones específicas\n        \n        ## Formato de Respuesta\n        Tu respuesta DEBE estar en formato JSON con exactamente esta estructura:\n        \n        \x7b\n            \"tendencia\": \"estable|creciente|decreciente|fluctuante\",\n            \"probabilidad_fuga\": valor_numérico_entre_0_y_100,\n            \"recomendacion\": \"texto con acción recomendada\",\n            \"detalles\": \x7b\n                \"patrones_identificados\": [\"lista\", \"de\", \"patrones\"],\n                \"anomalias\": [\"lista\", \"de\", \"anomalías\"],\n                \"explicacion\": \"explicación del análisis\"\n            \x7d\n        \x7d\n        "

/-- The outcome of the external Gemini call: the raised exception's message,
or the raw response text. -/
abbrev LLMOutcome := Except (List Char) (List Char)

/-- The error dict of the outer `except` of `generate_reasoned_response`
(src/main.py lines 118-125). -/
def error_analysis (e : List Char) : Analisis :=
  { tendencia := .str (chars "error")
    probabilidad_fuga := 0
    recomendacion := .str (chars "Error en análisis: " ++ e)
    detalles := .obj (.cons (chars "error") (.str e) .nil) }

/-- `ReasoningSystem.generate_reasoned_response` (src/main.py lines 69-125)
as called with a configured client: an exception from the API call yields the
error dict, a returned text goes through the parsing stage.  (The
no-API-key early return on lines 71-75 is unreachable from the orchestration,
which checks the client before calling; it is modelled by the caller's
guard.) -/
def generate_reasoned_response (llm : LLMOutcome) : Analisis :=
  match llm with
  | .ok text => interpret_response text
  | .error e => error_analysis e

/-- `analizar_datos_flujo` (src/main.py lines 437-492): abort without a
client; fetch the last 50 readings and abort below 5 of them, leaving the
state untouched; otherwise build the query, run the reasoning system, attach
the period label and persist (the `if resultado:` guard always holds, a
nonempty dict being truthy). -/
def analizar_datos_flujo (s : DBState) (hasClient : Bool) (llm : LLMOutcome)
    (ts : List Char) : DBState × Option (Analisis × List Char) :=
  if hasClient = false then (s, none)
  else
    let registros := obtener_historial s 50 0
    if registros.length < 5 then (s, none)
    else
      let _query := create_prompt_for_flow_analysis (build_query registros)
      let resultado := generate_reasoned_response llm
      let periodo := chars "últimos " ++ natChars registros.length ++ chars " registros"
      ((guardar_analisis_tendencia s resultado (some periodo) ts).1,
       some (resultado, periodo))

/-- A sequence of `guardar_flujo` ingestions (each reading with its
timestamp), as driven by the `/flujo` endpoint. -/
def ingestMany (s : DBState) (inputs : List (Rat × List Char)) : DBState :=
  inputs.foldl (fun st p => (guardar_flujo st p.1 p.2 none).1) s

/-! ### Claims C1-C5: the Response Interpreter. -/

/-- C1: every raw response text is interpreted to some well-formed analysis
result (an `Analisis` carries the trend, leak-probability, recommendation and
details fields by construction); every execution of the parsing body that
raises (`parse_stage` returning an error) is absorbed by the handler into the
fallback result rather than propagating to the caller. -/
theorem C1_interpreter_never_raises (text : List Char) :
    (∃ a, parse_stage text = .ok a ∧ interpret_response text = a) ∨
    (∃ e, parse_stage text = .error e ∧
      interpret_response text = create_fallback_analysis text) := by
  cases h : parse_stage text with
  | ok a => exact .inl ⟨a, rfl, by simp [interpret_response, h]⟩
  | error e => exact .inr ⟨e, rfl, by simp [interpret_response, h]⟩

/-- C2 counterexample: the claim says out-of-range numeric leak probabilities
are clamped to `[0, 100]`, but the code performs no clamping: interpreting a
response whose JSON carries `probabilidad_fuga: 150` yields 150, outside the
interval. -/
theorem C2_no_clamping_cex :
    interpret_response (chars "\x7b\"probabilidad_fuga\": 150\x7d") =
      { tendencia := .str (chars "desconocida")
        probabilidad_fuga := JNum.toRat ⟨150, 0⟩
        recomendacion := .str (chars "No hay recomendaciones disponibles")
        detalles := .obj .nil } ∧
    JNum.toRat ⟨150, 0⟩ = 150 ∧ ¬ (150 : Rat) ≤ 100 :=
  ⟨rfl, by norm_num [JNum.toRat], by norm_num⟩

/-- C2 amended: the interpreted leak probability is either `0` (both fallback
paths and the missing-key default) or exactly the unclamped `float(...)`
coercion of the `probabilidad_fuga` field of the parsed JSON object; no value
is ever clamped to `[0, 100]`, and non-coercible values produce the
fallback's `0`. -/
theorem C2_amended_probability (text : List Char) (a : Analisis)
    (h : interpret_response text = a) :
    a.probabilidad_fuga = 0 ∨
    ∃ jt res, jsonCandidate (pyStrip text) = some jt ∧ jsonLoadsObj jt = some res ∧
      pyFloat ((pyGet res (chars "probabilidad_fuga")).getD (.num ⟨0, 0⟩)) =
        some a.probabilidad_fuga := by
  subst h
  cases hc : jsonCandidate (pyStrip text) with
  | none =>
    exact .inl (by simp [interpret_response, parse_stage, hc, create_fallback_analysis])
  | some jt =>
    cases hl : jsonLoadsObj jt with
    | none =>
      exact .inl (by simp [interpret_response, parse_stage, hc, hl, create_fallback_analysis])
    | some res =>
      cases hq : pyFloat ((pyGet res (chars "probabilidad_fuga")).getD (.num ⟨0, 0⟩)) with
      | none =>
        exact .inl (by simp [interpret_response, parse_stage, hc, hl, hq, create_fallback_analysis])
      | some q =>
        exact .inr ⟨jt, res, rfl, hl, by simp [interpret_response, parse_stage, hc, hl, hq]⟩

theorem C2_amended_probability_witness :
    (interpret_response (chars "x")).probabilidad_fuga = 0 ∨
    ∃ jt res, jsonCandidate (pyStrip (chars "x")) = some jt ∧ jsonLoadsObj jt = some res ∧
      pyFloat ((pyGet res (chars "probabilidad_fuga")).getD (.num ⟨0, 0⟩)) =
        some (interpret_response (chars "x")).probabilidad_fuga :=
  C2_amended_probability (chars "x") _ rfl

/-- C3: when the trimmed text's first-`{`-to-last-`}` slice parses as a JSON
object carrying all four expected keys (and the probability value coerces to
a float), interpretation returns exactly those four values, the probability
as the coerced float; everything outside the slice is ignored. -/
theorem C3_valid_json_extraction (text jt : List Char) (res : JObj)
    (tv pv rv dv : JsonVal) (q : Rat)
    (hc : jsonCandidate (pyStrip text) = some jt)
    (hl : jsonLoadsObj jt = some res)
    (ht : pyGet res (chars "tendencia") = some tv)
    (hp : pyGet res (chars "probabilidad_fuga") = some pv)
    (hr : pyGet res (chars "recomendacion") = some rv)
    (hd : pyGet res (chars "detalles") = some dv)
    (hq : pyFloat pv = some q) :
    interpret_response text = ⟨tv, q, rv, dv⟩ := by
  simp [interpret_response, parse_stage, hc, hl, hp, hq, ht, hr, hd]

theorem C3_valid_json_extraction_witness :
    interpret_response (chars "noise noise \x7b\"tendencia\": \"estable\", \"probabilidad_fuga\": 12.5, \"recomendacion\": \"ok\", \"detalles\": \x7b\x7d\x7d trailing") =
      ⟨.str (chars "estable"), JNum.toRat ⟨125, 1⟩, .str (chars "ok"), .obj .nil⟩ ∧
    JNum.toRat ⟨125, 1⟩ = 25 / 2 :=
  ⟨C3_valid_json_extraction _ _ _ _ _ _ _ _ rfl rfl rfl rfl rfl rfl rfl,
   by norm_num [JNum.toRat]⟩

/-- C4 counterexample: the claim says the fallback's details hold the first
500 characters of the *original* text, but in the no-brace-pair branch the
code passes the *stripped* text to the fallback builder: interpreting
`" abc"` stores `"abc..."`, not `" abc..."`. -/
theorem C4_fallback_cex :
    interpret_response (chars " abc") = create_fallback_analysis (chars "abc") ∧
    (interpret_response (chars " abc")).detalles ≠
      .obj (.cons (chars "respuesta_original")
        (.str ((chars " abc").take 500 ++ chars "...")) .nil) :=
  ⟨rfl, by decide⟩

/-- C4 amended: with no `{`...`}` pair in the trimmed text the interpreter
returns the fallback result built from the *trimmed* text (trend "análisis
incompleto", probability 0, the fixed manual-review recommendation, details
holding the first 500 characters plus the `...` marker); with a pair whose
slice fails to parse it returns the fallback built from the *original*
untrimmed text. -/
theorem C4_amended_fallback (text : List Char) :
    (jsonCandidate (pyStrip text) = none →
      interpret_response text = create_fallback_analysis (pyStrip text)) ∧
    (∀ jt, jsonCandidate (pyStrip text) = some jt → jsonLoadsObj jt = none →
      interpret_response text = create_fallback_analysis text) := by
  constructor
  · intro hc
    simp [interpret_response, parse_stage, hc]
  · intro jt hc hl
    simp [interpret_response, parse_stage, hc, hl]

theorem C4_amended_fallback_witness :
    interpret_response (chars " abc") = create_fallback_analysis (pyStrip (chars " abc")) ∧
    interpret_response (chars "\x7bx\x7d") = create_fallback_analysis (chars "\x7bx\x7d") :=
  ⟨(C4_amended_fallback (chars " abc")).1 rfl,
   (C4_amended_fallback (chars "\x7bx\x7d")).2 (chars "\x7bx\x7d") rfl rfl⟩

/-- C5 counterexample: the claim says a wrong-typed `probabilidad_fuga` falls
back to its own default `0` while other fields keep their parsed values, but
a non-coercible value (here JSON `null`) makes `float(...)` raise, so the
whole result becomes the fallback: the parsed `tendencia: "estable"` is
discarded. -/
theorem C5_field_defaults_cex :
    interpret_response (chars "\x7b\"tendencia\": \"estable\", \"probabilidad_fuga\": null\x7d") =
      create_fallback_analysis (chars "\x7b\"tendencia\": \"estable\", \"probabilidad_fuga\": null\x7d") ∧
    (interpret_response (chars "\x7b\"tendencia\": \"estable\", \"probabilidad_fuga\": null\x7d")).tendencia ≠
      .str (chars "estable") :=
  ⟨rfl, by decide⟩

/-- C5 amended: after a successful parse, each *absent* field defaults
individually (trend `"desconocida"`, probability `0`, the generic
recommendation, empty details) while present fields are passed through
unchanged and untype-checked; but a present `probabilidad_fuga` that cannot
be coerced to float raises inside `float(...)`, producing the *whole*
fallback result instead of a per-field default, and a coercible one yields
the coerced value with the other three fields read as above. -/
theorem C5_amended_field_defaults (text jt : List Char) (res : JObj)
    (hc : jsonCandidate (pyStrip text) = some jt)
    (hl : jsonLoadsObj jt = some res) :
    (pyGet res (chars "probabilidad_fuga") = none →
      interpret_response text =
        { tendencia := (pyGet res (chars "tendencia")).getD (.str (chars "desconocida"))
          probabilidad_fuga := 0
          recomendacion := (pyGet res (chars "recomendacion")).getD
            (.str (chars "No hay recomendaciones disponibles"))
          detalles := (pyGet res (chars "detalles")).getD (.obj .nil) }) ∧
    (∀ pv, pyGet res (chars "probabilidad_fuga") = some pv → pyFloat pv = none →
      interpret_response text = create_fallback_analysis text) ∧
    (∀ pv q, pyGet res (chars "probabilidad_fuga") = some pv → pyFloat pv = some q →
      interpret_response text =
        { tendencia := (pyGet res (chars "tendencia")).getD (.str (chars "desconocida"))
          probabilidad_fuga := q
          recomendacion := (pyGet res (chars "recomendacion")).getD
            (.str (chars "No hay recomendaciones disponibles"))
          detalles := (pyGet res (chars "detalles")).getD (.obj .nil) }) := by
  refine ⟨fun hp => ?_, fun pv hp hq => ?_, fun pv q hp hq => ?_⟩
  · simp [interpret_response, parse_stage, hc, hl, hp, pyFloat, JNum.toRat]
  · simp [interpret_response, parse_stage, hc, hl, hp, hq]
  · simp [interpret_response, parse_stage, hc, hl, hp, hq]

theorem C5_amended_field_defaults_witness :
    (interpret_response (chars "\x7b\"tendencia\": \"x\"\x7d") =
      { tendencia := .str (chars "x")
        probabilidad_fuga := 0
        recomendacion := .str (chars "No hay recomendaciones disponibles")
        detalles := .obj .nil }) ∧
    (interpret_response (chars "\x7b\"tendencia\": \"estable\", \"probabilidad_fuga\": null\x7d") =
      create_fallback_analysis (chars "\x7b\"tendencia\": \"estable\", \"probabilidad_fuga\": null\x7d")) ∧
    (interpret_response (chars "\x7b\"probabilidad_fuga\": 1\x7d") =
      { tendencia := .str (chars "desconocida")
        probabilidad_fuga := JNum.toRat ⟨1, 0⟩
        recomendacion := .str (chars "No hay recomendaciones disponibles")
        detalles := .obj .nil }) :=
  ⟨(C5_amended_field_defaults (chars "\x7b\"tendencia\": \"x\"\x7d")
      (chars "\x7b\"tendencia\": \"x\"\x7d") (.cons (chars "tendencia") (.str (chars "x")) .nil)
      rfl rfl).1 rfl,
   (C5_amended_field_defaults (chars "\x7b\"tendencia\": \"estable\", \"probabilidad_fuga\": null\x7d")
      (chars "\x7b\"tendencia\": \"estable\", \"probabilidad_fuga\": null\x7d")
      (.cons (chars "tendencia") (.str (chars "estable"))
        (.cons (chars "probabilidad_fuga") .null .nil)) rfl rfl).2.1 .null rfl rfl,
   (C5_amended_field_defaults (chars "\x7b\"probabilidad_fuga\": 1\x7d")
      (chars "\x7b\"probabilidad_fuga\": 1\x7d")
      (.cons (chars "probabilidad_fuga") (.num ⟨1, 0⟩) .nil) rfl rfl).2.2
      (.num ⟨1, 0⟩) (JNum.toRat ⟨1, 0⟩) rfl rfl⟩

/-! ### Claims C6, C7: trigger state machine and the insufficient-data
abort. -/

theorem ingestMany_records (inputs : List (Rat × List Char)) :
    ∀ s : DBState, (ingestMany s inputs).records_since_last_analysis =
      s.records_since_last_analysis + inputs.length := by
  induction inputs with
  | nil => intro s; simp [ingestMany]
  | cons p tl ih =>
    intro s
    have e : ingestMany s (p :: tl) =
        ingestMany ((guardar_flujo s p.1 p.2 none).1) tl := rfl
    rw [e, ih]
    simp [guardar_flujo]
    omega

theorem ingestMany_pending (inputs : List (Rat × List Char)) :
    ∀ s : DBState,
      s.pending_analysis = decide (analysisThreshold ≤ s.records_since_last_analysis) →
      (ingestMany s inputs).pending_analysis =
        decide (analysisThreshold ≤ s.records_since_last_analysis + inputs.length) := by
  induction inputs with
  | nil => intro s h; simpa [ingestMany] using h
  | cons p tl ih =>
    intro s h
    have e : ingestMany s (p :: tl) =
        ingestMany ((guardar_flujo s p.1 p.2 none).1) tl := rfl
    have h' : ((guardar_flujo s p.1 p.2 none).1).pending_analysis =
        decide (analysisThreshold ≤
          ((guardar_flujo s p.1 p.2 none).1).records_since_last_analysis) := by
      simp only [guardar_flujo, analysisThreshold] at h ⊢
      by_cases h5 : 5 ≤ s.records_since_last_analysis + 1
      · simp [h5]
      · have h4 : ¬ 5 ≤ s.records_since_last_analysis := by omega
        simp [h5, h, h4]
    rw [e, ih _ h']
    have r : ((guardar_flujo s p.1 p.2 none).1).records_since_last_analysis =
        s.records_since_last_analysis + 1 := rfl
    rw [r]
    congr 1
    · simp
      omega

/-- C6: starting from a reset trigger state, each `guardar_flujo` increments
the counter by exactly 1, so after `n` ingestions the counter is `n` and
`necesita_analisis` is true exactly when `n` has reached the threshold 5
(false before, true on the fifth, and it stays true under further
ingestions); `guardar_analisis_tendencia` unconditionally resets the counter
to 0 and the pending flag to false. -/
theorem C6_trigger_state_machine (s0 : DBState) (inputs : List (Rat × List Char))
    (h0 : s0.records_since_last_analysis = 0)
    (hp : s0.pending_analysis = false) :
    (∀ s f ts an, ((guardar_flujo s f ts an).1).records_since_last_analysis =
        s.records_since_last_analysis + 1) ∧
    (ingestMany s0 inputs).records_since_last_analysis = inputs.length ∧
    necesita_analisis (ingestMany s0 inputs) =
      decide (analysisThreshold ≤ inputs.length) ∧
    (∀ s a per ts,
      ((guardar_analisis_tendencia s a per ts).1).records_since_last_analysis = 0 ∧
      ((guardar_analisis_tendencia s a per ts).1).pending_analysis = false) := by
  refine ⟨fun s f ts an => rfl, ?_, ?_, fun s a per ts => ⟨rfl, rfl⟩⟩
  · rw [ingestMany_records, h0, Nat.zero_add]
  · have h := ingestMany_pending inputs s0 (by
      rw [h0, hp]
      simp [analysisThreshold])
    rw [h0, Nat.zero_add] at h
    exact h

theorem C6_trigger_state_machine_witness :
    (∀ s f ts an, ((guardar_flujo s f ts an).1).records_since_last_analysis =
        s.records_since_last_analysis + 1) ∧
    (ingestMany initialDB
      [(1, chars "t1"), (2, chars "t2"), (3, chars "t3"), (4, chars "t4"),
       (5, chars "t5")]).records_since_last_analysis =
      [((1 : Rat), chars "t1"), (2, chars "t2"), (3, chars "t3"), (4, chars "t4"),
       (5, chars "t5")].length ∧
    necesita_analisis (ingestMany initialDB
      [(1, chars "t1"), (2, chars "t2"), (3, chars "t3"), (4, chars "t4"),
       (5, chars "t5")]) =
      decide (analysisThreshold ≤
        [((1 : Rat), chars "t1"), (2, chars "t2"), (3, chars "t3"), (4, chars "t4"),
         (5, chars "t5")].length) ∧
    (∀ s a per ts,
      ((guardar_analisis_tendencia s a per ts).1).records_since_last_analysis = 0 ∧
      ((guardar_analisis_tendencia s a per ts).1).pending_analysis = false) :=
  C6_trigger_state_machine initialDB
    [(1, chars "t1"), (2, chars "t2"), (3, chars "t3"), (4, chars "t4"),
     (5, chars "t5")] rfl rfl

/-- C7: when the fetched window holds fewer readings than the minimum 5, the
analysis cycle aborts: it returns no result, persists no trend row, and
leaves every part of the state (in particular
`records_since_last_analysis` and `pending_analysis`) exactly as it was, so
the pending trigger survives for the next crossing. -/
theorem C7_insufficient_data_abort (s : DBState) (llm : LLMOutcome)
    (ts : List Char) (h : (obtener_historial s 50 0).length < 5) :
    analizar_datos_flujo s true llm ts = (s, none) := by
  simp [analizar_datos_flujo, h]

theorem C7_insufficient_data_abort_witness :
    analizar_datos_flujo initialDB true (.ok (chars "x")) (chars "t") =
      (initialDB, none) :=
  C7_insufficient_data_abort initialDB (.ok (chars "x")) (chars "t") (by decide)

/-! ### Claim C9: the prompt embeds the two-decimal statistics and the
capped raw listing. -/

/-- The leading block of an append is one way to exhibit an embedded
occurrence. -/
theorem contains_head (x b : List Char) : ∃ l r, x ++ b = l ++ (x ++ r) :=
  ⟨[], b, rfl⟩

/-- An occurrence inside `t` is an occurrence inside `a ++ t`. -/
theorem contains_tail {t x : List Char} (a : List Char)
    (h : ∃ l r, t = l ++ (x ++ r)) : ∃ l r, a ++ t = l ++ (x ++ r) := by
  obtain ⟨l, r, h⟩ := h
  exact ⟨a ++ l, r, by simp [h, List.append_assoc]⟩

/-- C9: for every window of fetched readings, the prompt handed to the
reasoning client embeds the derived summary statistics -- mean, max and min
rendered with two decimals by `fmt2`, and the record count -- together with a
bounded textual listing of the most recent readings; the listing is capped on
its own (at its first 10 characters, `datos_formateados[:10]`) independently
of the statistics block. -/
theorem C9_prompt_embeds_stats (registros : List Registro) :
    (∃ l r, create_prompt_for_flow_analysis (build_query registros) =
      l ++ fmt2 (stats_promedio registros) ++ r) ∧
    (∃ l r, create_prompt_for_flow_analysis (build_query registros) =
      l ++ fmt2 (stats_maximo registros) ++ r) ∧
    (∃ l r, create_prompt_for_flow_analysis (build_query registros) =
      l ++ fmt2 (stats_minimo registros) ++ r) ∧
    (∃ l r, create_prompt_for_flow_analysis (build_query registros) =
      l ++ natChars registros.length ++ r) ∧
    (∃ l r, create_prompt_for_flow_analysis (build_query registros) =
      l ++ (datos_formateados registros).take 10 ++ r) := by
  simp only [create_prompt_for_flow_analysis, build_query, List.append_assoc]
  refine ⟨?_, ?_, ?_, ?_, ?_⟩
  · exact contains_tail _ (contains_tail _ (contains_head _ _))
  · exact contains_tail _ (contains_tail _ (contains_tail _ (contains_tail _
      (contains_head _ _))))
  · exact contains_tail _ (contains_tail _ (contains_tail _ (contains_tail _
      (contains_tail _ (contains_tail _ (contains_head _ _))))))
  · exact contains_tail _ (contains_tail _ (contains_tail _ (contains_tail _
      (contains_tail _ (contains_tail _ (contains_tail _ (contains_tail _
        (contains_head _ _))))))))
  · exact contains_tail _ (contains_tail _ (contains_tail _ (contains_tail _
      (contains_tail _ (contains_tail _ (contains_tail _ (contains_tail _
        (contains_tail _ (contains_tail _ (contains_head _ _))))))))))

/-! ### Round trip of `json.dumps` / `json.loads`: the serializer's output
parses back to the value it was printed from. -/

theorem skipWs_cons_not {c : Char} (l : List Char) (h : isWsChar c = false) :
    skipWs (c :: l) = c :: l := by
  simp [skipWs, List.dropWhile_cons, h]

theorem toNat_digitChar {d : Nat} (h : d < 10) : (digitChar d).toNat = 48 + d := by
  interval_cases d <;> decide

theorem isDigit_digitChar {d : Nat} (h : d < 10) : (digitChar d).isDigit = true := by
  interval_cases d <;> decide

theorem digitChar_eq_zero_iff {d : Nat} (h : d < 10) :
    (digitChar d = '0') ↔ d = 0 := by
  interval_cases d <;> decide

theorem natChars_ne_nil (n : Nat) : natChars n ≠ [] := by
  unfold natChars
  split
  · simp
  · next h =>
    simp [Nat.digits_eq_nil_iff_eq_zero, h]

theorem natChars_all_digits (n : Nat) : ∀ c ∈ natChars n, c.isDigit = true := by
  unfold natChars
  split
  · intro c hc
    simp at hc
    subst hc
    decide
  · intro c hc
    simp only [List.mem_reverse, List.mem_map] at hc
    obtain ⟨d, hd, rfl⟩ := hc
    exact isDigit_digitChar (Nat.digits_lt_base (by norm_num) hd)

theorem digitsToNat_step (l : List Char) :
    ∀ a : Nat, List.foldl (fun a c => 10 * a + (c.toNat - 48)) a l =
      a * 10 ^ l.length + List.foldl (fun a c => 10 * a + (c.toNat - 48)) 0 l := by
  induction l with
  | nil => intro a; simp
  | cons c tl ih =>
    intro a
    rw [List.foldl_cons, List.foldl_cons, ih, ih (10 * 0 + (c.toNat - 48))]
    simp [List.length_cons]
    ring

theorem digitsToNat_append (x y : List Char) :
    digitsToNat (x ++ y) = digitsToNat x * 10 ^ y.length + digitsToNat y := by
  unfold digitsToNat
  rw [List.foldl_append]
  exact digitsToNat_step y _

theorem digitsToNat_of_digits (L : List Nat) (h : ∀ d ∈ L, d < 10) :
    digitsToNat ((L.map digitChar).reverse) = Nat.ofDigits 10 L := by
  induction L with
  | nil => simp [digitsToNat, Nat.ofDigits]
  | cons d tl ih =>
    have hd : d < 10 := h d (List.mem_cons_self d tl)
    have h1 : digitsToNat [digitChar d] = d := by
      simp [digitsToNat, toNat_digitChar hd]
    rw [List.map_cons, List.reverse_cons, digitsToNat_append, h1,
      ih (fun x hx => h x (List.mem_cons_of_mem d hx)), Nat.ofDigits_cons]
    simp
    ring

theorem digitsToNat_natChars (n : Nat) : digitsToNat (natChars n) = n := by
  unfold natChars
  split
  · next h =>
    subst h
    decide
  · rw [digitsToNat_of_digits _ (fun d hd => Nat.digits_lt_base (by norm_num) hd),
      Nat.ofDigits_digits]

theorem intDigitsOk_natChars (n : Nat) : intDigitsOk (natChars n) = true := by
  unfold natChars
  split
  · decide
  · next h =>
    obtain ⟨l', e, hL⟩ := (Nat.digits 10 n).eq_nil_or_concat.resolve_left
      (by simp [Nat.digits_eq_nil_iff_eq_zero, h])
    rw [hL]
    have he : e ∈ Nat.digits 10 n := by rw [hL]; simp
    have he10 : e < 10 := Nat.digits_lt_base (by norm_num) he
    have hne : Nat.digits 10 n ≠ [] := by
      simp [Nat.digits_eq_nil_iff_eq_zero, h]
    have hlast : e ≠ 0 := by
      have h2 := Nat.getLast_digit_ne_zero 10 h
      have h3 : (Nat.digits 10 n).getLast? = some e := by
        rw [hL, List.concat_eq_append]
        exact List.getLast?_concat _
      have h4 : (Nat.digits 10 n).getLast? =
          some ((Nat.digits 10 n).getLast (Nat.digits_ne_nil_iff_ne_zero.mpr h)) :=
        List.getLast?_eq_getLast_of_ne_nil _
      rw [h4] at h3
      rw [Option.some_inj] at h3
      rw [← h3]
      exact h2
    simp only [List.concat_eq_append, List.map_append, List.map_cons, List.map_nil,
      List.reverse_append, List.reverse_cons, List.reverse_nil, List.nil_append,
      List.cons_append, List.singleton_append, intDigitsOk]
    rw [if_neg]
    intro h0
    exact hlast ((digitChar_eq_zero_iff he10).mp h0)

/-- The head of the remaining input cannot extend a number token. -/
def numStop : List Char → Prop
  | [] => True
  | c :: _ => c.isDigit = false ∧ c ≠ '.' ∧ c ≠ 'e' ∧ c ≠ 'E'

/-- The head of the list (if any) fails the predicate `p`. -/
def headFalse (p : Char → Bool) : List Char → Prop
  | [] => True
  | c :: _ => p c = false

/-- The head of the list (if any) differs from `x`. -/
def headNe (x : Char) : List Char → Prop
  | [] => True
  | c :: _ => c ≠ x

theorem takeWhile_append_all {p : Char → Bool} {l rest : List Char}
    (h : ∀ c ∈ l, p c = true) (h2 : headFalse p rest) :
    (l ++ rest).takeWhile p = l ∧ (l ++ rest).dropWhile p = rest := by
  induction l with
  | nil =>
    cases rest with
    | nil => simp
    | cons c r =>
      have h2' : p c = false := h2
      simp [List.takeWhile_cons, List.dropWhile_cons, h2']
  | cons a l' ih =>
    have ha := h a (List.mem_cons_self a l')
    have ih' := ih (fun c hc => h c (List.mem_cons_of_mem a hc))
    simp [List.cons_append, List.takeWhile_cons, List.dropWhile_cons, ha,
      ih'.1, ih'.2]

theorem splitDigits_append {l rest : List Char}
    (h : ∀ c ∈ l, c.isDigit = true) (h2 : headFalse Char.isDigit rest) :
    splitDigits (l ++ rest) = (l, rest) := by
  have := takeWhile_append_all h h2
  unfold splitDigits
  rw [this.1, this.2]

theorem parseFrac_stop {rest : List Char} (h2 : headNe '.' rest) :
    parseFrac rest = some ([], rest) := by
  cases rest with
  | nil => rfl
  | cons c r =>
    have h2' : c ≠ '.' := h2
    simp [parseFrac, h2']

theorem parseExp_stop {rest : List Char} (h1 : headNe 'e' rest)
    (h2 : headNe 'E' rest) : parseExp rest = some (0, rest) := by
  cases rest with
  | nil => rfl
  | cons c r =>
    have h1' : c ≠ 'e' := h1
    have h2' : c ≠ 'E' := h2
    simp [parseExp, h1', h2']

theorem numStop_digit {rest : List Char} (h : numStop rest) :
    headFalse Char.isDigit rest := by
  cases rest with
  | nil => trivial
  | cons c r => exact h.1

theorem numStop_dot {rest : List Char} (h : numStop rest) : headNe '.' rest := by
  cases rest with
  | nil => trivial
  | cons c r => exact h.2.1

theorem numStop_e {rest : List Char} (h : numStop rest) : headNe 'e' rest := by
  cases rest with
  | nil => trivial
  | cons c r => exact h.2.2.1

theorem numStop_E {rest : List Char} (h : numStop rest) : headNe 'E' rest := by
  cases rest with
  | nil => trivial
  | cons c r => exact h.2.2.2

theorem natChars_head {n : Nat} (h : n ≠ 0) :
    ∃ c tl, natChars n = c :: tl ∧ c ≠ '0' := by
  cases hc : natChars n with
  | nil => exact absurd hc (natChars_ne_nil n)
  | cons c tl =>
    refine ⟨c, tl, rfl, fun h0 => ?_⟩
    subst h0
    have hok := intDigitsOk_natChars n
    rw [hc] at hok
    simp [intDigitsOk] at hok
    have hv := digitsToNat_natChars n
    rw [hc, hok] at hv
    have h0 : digitsToNat ['0'] = 0 := rfl
    rw [h0] at hv
    exact h hv.symm

theorem digitsToNat_replicate_zero (k : Nat) :
    digitsToNat (List.replicate k '0') = 0 := by
  induction k with
  | zero => rfl
  | succ k ih =>
    unfold digitsToNat at ih ⊢
    rw [List.replicate_succ, List.foldl_cons]
    simpa using ih

theorem mkJNum_int (neg : Bool) (abs : Nat) :
    mkJNum neg (natChars abs) [] 0 =
      ⟨if neg then -(abs : Int) else (abs : Int), 0⟩ := by
  have h0 : digitsToNat [] = 0 := rfl
  unfold mkJNum
  simp [digitsToNat_natChars, h0]

theorem mkJNum_frac (neg : Bool) (ipart fpart : List Char) (hf : fpart ≠ []) :
    mkJNum neg ipart fpart 0 =
      ⟨if neg
        then -((digitsToNat ipart * 10 ^ fpart.length + digitsToNat fpart : Nat) : Int)
        else ((digitsToNat ipart * 10 ^ fpart.length + digitsToNat fpart : Nat) : Int),
       fpart.length⟩ := by
  have hl : fpart.length ≠ 0 := by simpa using hf
  have hle : ¬ ((fpart.length : Int) - 0 ≤ 0) := by omega
  unfold mkJNum
  simp [hle]
  intro h
  exact absurd h hf

theorem parseNumBody_int (neg : Bool) (ds rest : List Char)
    (hd : ∀ c ∈ ds, c.isDigit = true) (hok : intDigitsOk ds = true)
    (hr : numStop rest) :
    parseNumBody neg (ds ++ rest) = some (.num (mkJNum neg ds [] 0), rest) := by
  unfold parseNumBody
  rw [splitDigits_append hd (numStop_digit hr)]
  simp [hok, parseFrac_stop (numStop_dot hr),
    parseExp_stop (numStop_e hr) (numStop_E hr)]

theorem parseNumBody_frac (neg : Bool) (ipart fpart rest : List Char)
    (hi : ∀ c ∈ ipart, c.isDigit = true) (hfd : ∀ c ∈ fpart, c.isDigit = true)
    (hok : intDigitsOk ipart = true) (hf : fpart ≠ []) (hr : numStop rest) :
    parseNumBody neg (ipart ++ '.' :: (fpart ++ rest)) =
      some (.num (mkJNum neg ipart fpart 0), rest) := by
  unfold parseNumBody
  rw [splitDigits_append hi (by exact (by decide : ('.').isDigit = false))]
  have hfr : parseFrac ('.' :: (fpart ++ rest)) = some (fpart, rest) := by
    simp [parseFrac, splitDigits_append hfd (numStop_digit hr), hf]
  simp [hok, hfr, parseExp_stop (numStop_e hr) (numStop_E hr)]

theorem isDigit_ne_minus {c : Char} (h : c.isDigit = true) : c ≠ '-' := by
  intro h0
  subst h0
  exact absurd h (by decide)

theorem dumpNum_eq_frac (n : JNum) (he : n.e ≠ 0) :
    dumpNum n = (if n.m < 0 then ['-'] else []) ++
      ((List.replicate (n.e + 1 - (natChars n.m.natAbs).length) '0' ++
          natChars n.m.natAbs).take
        ((List.replicate (n.e + 1 - (natChars n.m.natAbs).length) '0' ++
            natChars n.m.natAbs).length - n.e) ++
       '.' :: (List.replicate (n.e + 1 - (natChars n.m.natAbs).length) '0' ++
          natChars n.m.natAbs).drop
        ((List.replicate (n.e + 1 - (natChars n.m.natAbs).length) '0' ++
            natChars n.m.natAbs).length - n.e)) := by
  simp [dumpNum, he]

theorem natChars_zero : natChars 0 = ['0'] := rfl

theorem parseNum_dumpNum (n : JNum) (rest : List Char) (hr : numStop rest) :
    parseNum (dumpNum n ++ rest) = some (.num n, rest) := by
  by_cases he : n.e = 0
  · -- integer spelling
    by_cases hm : n.m < 0
    · have hd : dumpNum n = '-' :: natChars n.m.natAbs := by
        simp [dumpNum, he, hm]
      rw [hd, List.cons_append]
      unfold parseNum
      rw [show parseNumSign ('-' :: (natChars n.m.natAbs ++ rest)) =
          (true, natChars n.m.natAbs ++ rest) from by simp [parseNumSign]]
      rw [parseNumBody_int true _ _ (natChars_all_digits _)
        (intDigitsOk_natChars _) hr, mkJNum_int]
      have h1 : -(n.m.natAbs : Int) = n.m := by omega
      have hn : (⟨-(n.m.natAbs : Int), 0⟩ : JNum) = n := by
        rw [h1, ← he]
      show some (JsonVal.num ⟨-(n.m.natAbs : Int), 0⟩, rest) =
        some (JsonVal.num n, rest)
      rw [hn]
    · have hd : dumpNum n = natChars n.m.natAbs := by
        simp [dumpNum, he, hm]
      rw [hd]
      obtain ⟨c, tl, hct⟩ : ∃ c tl, natChars n.m.natAbs = c :: tl := by
        cases hc0 : natChars n.m.natAbs with
        | nil => exact absurd hc0 (natChars_ne_nil _)
        | cons c tl => exact ⟨c, tl, rfl⟩
      have hcd : c.isDigit = true := by
        apply natChars_all_digits n.m.natAbs
        rw [hct]
        exact List.mem_cons_self c tl
      unfold parseNum
      rw [hct, List.cons_append]
      rw [show parseNumSign (c :: (tl ++ rest)) = (false, c :: (tl ++ rest)) from
        by simp [parseNumSign, isDigit_ne_minus hcd]]
      rw [show c :: (tl ++ rest) = (c :: tl) ++ rest from rfl, ← hct]
      rw [parseNumBody_int false _ _ (natChars_all_digits _)
        (intDigitsOk_natChars _) hr, mkJNum_int]
      have h1 : (n.m.natAbs : Int) = n.m := by omega
      have hn : (⟨(n.m.natAbs : Int), 0⟩ : JNum) = n := by
        rw [h1, ← he]
      show some (JsonVal.num ⟨(n.m.natAbs : Int), 0⟩, rest) =
        some (JsonVal.num n, rest)
      rw [hn]
  · -- fractional spelling
    have hd := dumpNum_eq_frac n he
    set ds : List Char := natChars n.m.natAbs with hds
    set ds' : List Char :=
      List.replicate (n.e + 1 - ds.length) '0' ++ ds with hds'
    set k : Nat := ds'.length - n.e with hk
    have hds1 : 1 ≤ ds.length := List.length_pos.mpr (natChars_ne_nil _)
    have hlen' : ds'.length = (n.e + 1 - ds.length) + ds.length := by
      rw [hds']
      simp
    have hge : n.e + 1 ≤ ds'.length := by omega
    have hk1 : 1 ≤ k := by omega
    have hflen : (ds'.drop k).length = n.e := by
      rw [List.length_drop]
      omega
    have hfne : ds'.drop k ≠ [] := by
      intro h0
      rw [h0] at hflen
      exact he hflen.symm
    have hdigits' : ∀ c ∈ ds', c.isDigit = true := by
      intro c hc
      rw [hds'] at hc
      rcases List.mem_append.mp hc with h | h
      · rw [List.eq_of_mem_replicate h]
        decide
      · exact natChars_all_digits _ c h
    have hidig : ∀ c ∈ ds'.take k, c.isDigit = true :=
      fun c hc => hdigits' c (List.take_subset k ds' hc)
    have hfdig : ∀ c ∈ ds'.drop k, c.isDigit = true :=
      fun c hc => hdigits' c (List.drop_subset k ds' hc)
    have hval : digitsToNat ds' = n.m.natAbs := by
      rw [hds', digitsToNat_append, digitsToNat_replicate_zero, hds,
        digitsToNat_natChars]
      simp
    have hsum : digitsToNat (ds'.take k) * 10 ^ (ds'.drop k).length +
        digitsToNat (ds'.drop k) = n.m.natAbs := by
      rw [← digitsToNat_append, List.take_append_drop]
      exact hval
    have hiok : intDigitsOk (ds'.take k) = true := by
      by_cases hk2 : k = 1
      · obtain ⟨c, tl, hct⟩ : ∃ c tl, ds' = c :: tl := by
          cases hc0 : ds' with
          | nil =>
            rw [hc0] at hge
            simp at hge
          | cons c tl => exact ⟨c, tl, rfl⟩
        rw [hk2, hct]
        rw [show (1 : Nat) = 0 + 1 from rfl, List.take_succ_cons]
        simp [intDigitsOk]
      · have hpad : n.e + 1 - ds.length = 0 := by omega
        have habs0 : n.m.natAbs ≠ 0 := by
          intro h0
          have h1 : ds.length = 1 := by
            rw [hds, h0, natChars_zero]
            rfl
          omega
        obtain ⟨c, tl, hct, hc0⟩ := natChars_head habs0
        have hds'eq : ds' = c :: tl := by
          rw [hds', hpad]
          simp
          rw [hds, hct]
        obtain ⟨k', hk'⟩ : ∃ k', k = k' + 1 := ⟨k - 1, by omega⟩
        rw [hds'eq, hk', List.take_succ_cons]
        simp [intDigitsOk, hc0]
    rw [hd]
    by_cases hm : n.m < 0
    · rw [if_pos hm]
      rw [show ((['-'] : List Char) ++ (ds'.take k ++ '.' :: ds'.drop k)) ++ rest =
          '-' :: (ds'.take k ++ '.' :: (ds'.drop k ++ rest)) from by simp]
      unfold parseNum
      rw [show parseNumSign ('-' :: (ds'.take k ++ '.' :: (ds'.drop k ++ rest))) =
          (true, ds'.take k ++ '.' :: (ds'.drop k ++ rest)) from by simp [parseNumSign]]
      rw [parseNumBody_frac true _ _ _ hidig hfdig hiok hfne hr]
      rw [mkJNum_frac _ _ _ hfne]
      rw [hsum, hflen]
      have h1 : -(n.m.natAbs : Int) = n.m := by omega
      have hn : (⟨-(n.m.natAbs : Int), n.e⟩ : JNum) = n := by rw [h1]
      show some (JsonVal.num ⟨-(n.m.natAbs : Int), n.e⟩, rest) =
        some (JsonVal.num n, rest)
      rw [hn]
    · rw [if_neg hm]
      rw [show (([] : List Char) ++ (ds'.take k ++ '.' :: ds'.drop k)) ++ rest =
          ds'.take k ++ '.' :: (ds'.drop k ++ rest) from by simp]
      obtain ⟨c, tl, hct⟩ : ∃ c tl, ds'.take k = c :: tl := by
        cases hc0 : ds'.take k with
        | nil =>
          exfalso
          have : (ds'.take k).length = 0 := by rw [hc0]; rfl
          rw [List.length_take] at this
          omega
        | cons c tl => exact ⟨c, tl, rfl⟩
      have hcd : c.isDigit = true := by
        apply hidig
        rw [hct]
        exact List.mem_cons_self c tl
      unfold parseNum
      rw [hct, List.cons_append]
      rw [show parseNumSign (c :: (tl ++ '.' :: (ds'.drop k ++ rest))) =
          (false, c :: (tl ++ '.' :: (ds'.drop k ++ rest))) from
        by simp [parseNumSign, isDigit_ne_minus hcd]]
      rw [show c :: (tl ++ '.' :: (ds'.drop k ++ rest)) =
          (c :: tl) ++ '.' :: (ds'.drop k ++ rest) from rfl, ← hct]
      rw [parseNumBody_frac false _ _ _ hidig hfdig hiok hfne hr]
      rw [mkJNum_frac _ _ _ hfne]
      rw [hsum, hflen]
      have h1 : (n.m.natAbs : Int) = n.m := by omega
      have hn : (⟨(n.m.natAbs : Int), n.e⟩ : JNum) = n := by rw [h1]
      show some (JsonVal.num ⟨(n.m.natAbs : Int), n.e⟩, rest) =
        some (JsonVal.num n, rest)
      rw [hn]

theorem hexVal_hexChar {d : Nat} (h : d < 16) : hexVal (hexChar d) = some d := by
  interval_cases d <;> decide

theorem hex4Val_hex4 {n : Nat} (h : n < 65536) :
    hex4Val (hexChar (n / 4096 % 16)) (hexChar (n / 256 % 16))
      (hexChar (n / 16 % 16)) (hexChar (n % 16)) = some n := by
  unfold hex4Val
  rw [hexVal_hexChar (Nat.mod_lt _ (by norm_num)),
    hexVal_hexChar (Nat.mod_lt _ (by norm_num)),
    hexVal_hexChar (Nat.mod_lt _ (by norm_num)),
    hexVal_hexChar (Nat.mod_lt _ (by norm_num))]
  show some ((((n / 4096 % 16) * 16 + n / 256 % 16) * 16 + n / 16 % 16) * 16 + n % 16) =
    some n
  congr 1
  omega

theorem char_valid_ranges (c : Char) :
    c.toNat < 0xd800 ∨ (0xe000 ≤ c.toNat ∧ c.toNat < 0x110000) := by
  rcases c.valid with h | h
  · exact Or.inl h
  · exact Or.inr h

theorem parseStrB_quote (r : List Char) : parseStrB ('"' :: r) = some ([], r) := by
  simp [parseStrB]

theorem parseStrB_cons_plain {c : Char} (r : List Char) (h1 : c ≠ '"')
    (h2 : c ≠ '\\') :
    parseStrB (c :: r) = (parseStrB r).map (fun p => (c :: p.1, p.2)) := by
  simp [parseStrB, h1, h2]

theorem parseStrB_backslash (r : List Char) :
    parseStrB ('\\' :: r) = parseEscape r := by
  simp [parseStrB]

theorem parseEscape_u (r : List Char) : parseEscape ('u' :: r) = parseHexEsc r := by
  simp [parseEscape]

theorem parseEscape_unesc {e c : Char} (r : List Char) (h1 : e ≠ 'u')
    (h2 : unescChar e = some c) :
    parseEscape (e :: r) = (parseStrB r).map (fun p => (c :: p.1, p.2)) := by
  simp [parseEscape, h1, h2]

theorem parseHexEsc_plain {a b c d : Char} {n : Nat} (r : List Char)
    (hv : hex4Val a b c d = some n)
    (h1 : ¬ (0xd800 ≤ n ∧ n < 0xdc00)) (h2 : ¬ (0xdc00 ≤ n ∧ n < 0xe000)) :
    parseHexEsc (a :: b :: c :: d :: r) =
      (parseStrB r).map (fun p => (Char.ofNat n :: p.1, p.2)) := by
  rw [parseHexEsc, hv, Option.some_bind, if_neg h1, if_neg h2]

theorem parseHexEsc_pair {a b c d a2 b2 c2 d2 : Char} {n n2 : Nat}
    (r : List Char) (hv : hex4Val a b c d = some n)
    (h1 : 0xd800 ≤ n ∧ n < 0xdc00)
    (hv2 : hex4Val a2 b2 c2 d2 = some n2)
    (h2 : 0xdc00 ≤ n2 ∧ n2 < 0xe000) :
    parseHexEsc (a :: b :: c :: d :: ('\\' :: 'u' :: a2 :: b2 :: c2 :: d2 :: r)) =
      (parseStrB r).map (fun p =>
        (Char.ofNat (0x10000 + (n - 0xd800) * 0x400 + (n2 - 0xdc00)) :: p.1, p.2)) := by
  rw [parseHexEsc, hv, Option.some_bind, if_pos h1]
  rw [parseLowSurr, hv2, Option.some_bind, if_pos h2]

theorem hex4_cons (n : Nat) (r : List Char) :
    hex4 n ++ r = hexChar (n / 4096 % 16) :: hexChar (n / 256 % 16) ::
      hexChar (n / 16 % 16) :: hexChar (n % 16) :: r := by
  simp [hex4]

theorem escChar_short {c e : Char} (h : shortEsc c = some e) :
    escChar c = ['\\', e] := by
  simp only [escChar, h]

theorem escChar_plain {c : Char} (h : shortEsc c = none)
    (hr : ¬ (c.toNat < 0x20 ∨ 0x7e < c.toNat)) : escChar c = [c] := by
  simp only [escChar, h, if_neg hr]

theorem escChar_bmp {c : Char} (h : shortEsc c = none)
    (hr : c.toNat < 0x20 ∨ 0x7e < c.toNat) (hb : c.toNat < 0x10000) :
    escChar c = '\\' :: 'u' :: hex4 c.toNat := by
  simp only [escChar, h, if_pos hr, if_pos hb]

theorem escChar_astral {c : Char} (h : shortEsc c = none)
    (ha : 0x10000 ≤ c.toNat) :
    escChar c = ('\\' :: 'u' :: hex4 (0xd800 + (c.toNat - 0x10000) / 0x400)) ++
      ('\\' :: 'u' :: hex4 (0xdc00 + (c.toNat - 0x10000) % 0x400)) := by
  have hr : c.toNat < 0x20 ∨ 0x7e < c.toNat := Or.inr (by omega)
  have hb : ¬ c.toNat < 0x10000 := by omega
  simp only [escChar, h, if_pos hr, if_neg hb]

theorem shortEsc_spec {c e : Char} (h : shortEsc c = some e) :
    e ≠ 'u' ∧ unescChar e = some c := by
  unfold shortEsc at h
  split_ifs at h with h1 h2 h3 h4 h5 h6 h7 <;>
    (injection h with he; subst he; subst_vars; exact ⟨by decide, by decide⟩)

theorem shortEsc_none_ne {c : Char} (h : shortEsc c = none) :
    c ≠ '"' ∧ c ≠ '\\' := by
  constructor <;> intro he <;> subst he <;> exact absurd h (by decide)

/-- Round trip for string bodies: parsing the escaped characters followed by a
closing quote recovers exactly the original characters. -/
theorem parseStrB_escBody (s rest : List Char) :
    parseStrB (s.flatMap escChar ++ '"' :: rest) = some (s, rest) := by
  induction s with
  | nil => simpa using parseStrB_quote rest
  | cons c tl ih =>
    rw [List.flatMap_cons, List.append_assoc]
    set X := tl.flatMap escChar ++ '"' :: rest with hX
    cases hse : shortEsc c with
    | some e =>
      rw [escChar_short hse]
      obtain ⟨hu, hun⟩ := shortEsc_spec hse
      simp only [List.cons_append, List.nil_append]
      rw [parseStrB_backslash, parseEscape_unesc X hu hun, ih]
      rfl
    | none =>
      by_cases hr : c.toNat < 0x20 ∨ 0x7e < c.toNat
      · by_cases hb : c.toNat < 0x10000
        · rw [escChar_bmp hse hr hb]
          simp only [List.cons_append]
          rw [hex4_cons, parseStrB_backslash, parseEscape_u]
          have h1 : ¬ (0xd800 ≤ c.toNat ∧ c.toNat < 0xdc00) := by
            rcases char_valid_ranges c with h | ⟨h, _⟩ <;> omega
          have h2 : ¬ (0xdc00 ≤ c.toNat ∧ c.toNat < 0xe000) := by
            rcases char_valid_ranges c with h | ⟨h, _⟩ <;> omega
          rw [parseHexEsc_plain X (hex4Val_hex4 hb) h1 h2, ih]
          show some (Char.ofNat c.toNat :: tl, rest) = some (c :: tl, rest)
          rw [Char.ofNat_toNat]
        · have ha : 0x10000 ≤ c.toNat := by omega
          have hub : c.toNat < 0x110000 := by
            rcases char_valid_ranges c with h | ⟨_, h⟩ <;> omega
          rw [escChar_astral hse ha]
          simp only [List.append_assoc, List.cons_append]
          rw [hex4_cons, hex4_cons, parseStrB_backslash, parseEscape_u]
          have h1 : 0xd800 ≤ 0xd800 + (c.toNat - 0x10000) / 0x400 ∧
              0xd800 + (c.toNat - 0x10000) / 0x400 < 0xdc00 := by omega
          have h2 : 0xdc00 ≤ 0xdc00 + (c.toNat - 0x10000) % 0x400 ∧
              0xdc00 + (c.toNat - 0x10000) % 0x400 < 0xe000 := by omega
          rw [parseHexEsc_pair X
            (hex4Val_hex4 (show 0xd800 + (c.toNat - 0x10000) / 0x400 < 65536 by omega))
            h1
            (hex4Val_hex4 (show 0xdc00 + (c.toNat - 0x10000) % 0x400 < 65536 by omega))
            h2, ih]
          show some (Char.ofNat (0x10000 +
            (0xd800 + (c.toNat - 0x10000) / 0x400 - 0xd800) * 0x400 +
            (0xdc00 + (c.toNat - 0x10000) % 0x400 - 0xdc00)) :: tl, rest) =
            some (c :: tl, rest)
          have hval : 0x10000 + (0xd800 + (c.toNat - 0x10000) / 0x400 - 0xd800) * 0x400 +
              (0xdc00 + (c.toNat - 0x10000) % 0x400 - 0xdc00) = c.toNat := by omega
          rw [hval, Char.ofNat_toNat]
      · rw [escChar_plain hse hr]
        obtain ⟨hq, hbs⟩ := shortEsc_none_ne hse
        simp only [List.cons_append, List.nil_append]
        rw [parseStrB_cons_plain X hq hbs, ih]
        rfl

/-- Parsing a serialized string literal recovers the string. -/
theorem parseStrB_dumpStr (s rest : List Char) :
    parseStrB ((dumpStr s).tail ++ rest) = some (s, rest) := by
  show parseStrB ((s.flatMap escChar ++ ['"']) ++ rest) = some (s, rest)
  rw [List.append_assoc]
  exact parseStrB_escBody s rest

theorem skipWs_cons_ws {c : Char} (l : List Char) (h : isWsChar c = true) :
    skipWs (c :: l) = skipWs l := by
  simp [skipWs, List.dropWhile_cons, h]

theorem parseVal_cons_ws {c : Char} (f : Nat) (l : List Char)
    (h : isWsChar c = true) : parseVal f (c :: l) = parseVal f l := by
  cases f with
  | zero => rfl
  | succ f => rw [parseVal, parseVal, skipWs_cons_ws l h]

theorem parseItems_cons_ws {c : Char} (f : Nat) (l : List Char)
    (h : isWsChar c = true) : parseItems f (c :: l) = parseItems f l := by
  cases f with
  | zero => rfl
  | succ f => rw [parseItems, parseItems, parseVal_cons_ws f l h]

theorem parsePairs_cons_ws {c : Char} (f : Nat) (l : List Char)
    (h : isWsChar c = true) : parsePairs f (c :: l) = parsePairs f l := by
  cases f with
  | zero => rfl
  | succ f => rw [parsePairs, parsePairs, skipWs_cons_ws l h]

theorem parseVal_null (f : Nat) (rest : List Char) :
    parseVal (f + 1) ('n' :: 'u' :: 'l' :: 'l' :: rest) = some (.null, rest) := rfl

theorem parseVal_true (f : Nat) (rest : List Char) :
    parseVal (f + 1) ('t' :: 'r' :: 'u' :: 'e' :: rest) =
      some (.bool true, rest) := rfl

theorem parseVal_false (f : Nat) (rest : List Char) :
    parseVal (f + 1) ('f' :: 'a' :: 'l' :: 's' :: 'e' :: rest) =
      some (.bool false, rest) := rfl

theorem parseVal_str (f : Nat) (r : List Char) :
    parseVal (f + 1) ('"' :: r) =
      (parseStrB r).map (fun p => (.str p.1, p.2)) := rfl

theorem parseVal_arr_nil (f : Nat) (rest : List Char) :
    parseVal (f + 1) ('[' :: ']' :: rest) = some (.arr .nil, rest) := rfl

theorem parseVal_obj_nil (f : Nat) (rest : List Char) :
    parseVal (f + 1) ('\x7b' :: '\x7d' :: rest) = some (.obj .nil, rest) := rfl

theorem parseVal_obj_quote (f : Nat) (r : List Char) :
    parseVal (f + 1) ('\x7b' :: '"' :: r) =
      (parsePairs f ('"' :: r)).map (fun p => (.obj p.1, p.2)) := rfl

theorem digitish_ne {c : Char} (hc : c = '-' ∨ c.isDigit = true) :
    c ≠ '\x7b' ∧ c ≠ '[' ∧ c ≠ '"' ∧ c ≠ 't' ∧ c ≠ 'f' ∧ c ≠ 'n' ∧
      c ≠ ']' ∧ isWsChar c = false := by
  have key : ∀ x : Char, x ≠ '-' → x.isDigit = false → c ≠ x := by
    intro x hxm hx he
    subst he
    rcases hc with rfl | hd
    · exact hxm rfl
    · rw [hd] at hx; exact Bool.noConfusion hx
  refine ⟨key _ (by decide) (by decide), key _ (by decide) (by decide),
    key _ (by decide) (by decide), key _ (by decide) (by decide),
    key _ (by decide) (by decide), key _ (by decide) (by decide),
    key _ (by decide) (by decide), ?_⟩
  rcases hc with rfl | hd
  · decide
  · cases hw : isWsChar c
    · rfl
    · exfalso
      simp only [isWsChar, Bool.or_eq_true, decide_eq_true_eq] at hw
      rcases hw with ((rfl | rfl) | rfl) | rfl <;> exact absurd hd (by decide)

theorem parseVal_num (f : Nat) {c : Char} (r : List Char)
    (hc : c = '-' ∨ c.isDigit = true) :
    parseVal (f + 1) (c :: r) = parseNum (c :: r) := by
  rcases hc with rfl | hd
  · rfl
  · have h48 : 48 ≤ c.toNat ∧ c.toNat ≤ 57 := by
      simp only [Char.isDigit, Bool.and_eq_true, decide_eq_true_eq] at hd
      exact hd
    obtain ⟨d, hd10, rfl⟩ : ∃ d, d < 10 ∧ c = Char.ofNat (48 + d) := by
      refine ⟨c.toNat - 48, by omega, ?_⟩
      rw [show 48 + (c.toNat - 48) = c.toNat by omega, Char.ofNat_toNat]
    interval_cases d <;> rfl

/-- The characters that can start the serialization of a JSON value. -/
def dumpHeadOk (c : Char) : Prop :=
  c = 'n' ∨ c = 't' ∨ c = 'f' ∨ c = '"' ∨ c = '[' ∨ c = '\x7b' ∨ c = '-' ∨
    c.isDigit = true

theorem parseVal_arr_cons (f : Nat) {c : Char} (r : List Char)
    (hc : dumpHeadOk c) :
    parseVal (f + 1) ('[' :: c :: r) =
      (parseItems f (c :: r)).map (fun p => (JsonVal.arr p.1, p.2)) := by
  rcases hc with rfl | rfl | rfl | rfl | rfl | rfl | rfl | hd
  · rfl
  · rfl
  · rfl
  · rfl
  · rfl
  · rfl
  · rfl
  · have h48 : 48 ≤ c.toNat ∧ c.toNat ≤ 57 := by
      simp only [Char.isDigit, Bool.and_eq_true, decide_eq_true_eq] at hd
      exact hd
    obtain ⟨d, hd10, rfl⟩ : ∃ d, d < 10 ∧ c = Char.ofNat (48 + d) := by
      refine ⟨c.toNat - 48, by omega, ?_⟩
      rw [show 48 + (c.toNat - 48) = c.toNat by omega, Char.ofNat_toNat]
    interval_cases d <;> rfl

mutual
/-- Fuel sufficient for `parseVal` to parse the serialization of a value. -/
def rankV : JsonVal → Nat
  | .arr (.cons x tl) => 1 + rankL x tl
  | .obj (.cons _ v tl) => 1 + rankO v tl
  | _ => 1
termination_by v => sizeOf v

/-- Fuel sufficient for `parseItems` on a nonempty array body. -/
def rankL : JsonVal → JList → Nat
  | x, .nil => 1 + rankV x
  | x, .cons y tl => 1 + max (rankV x) (rankL y tl)
termination_by x tl => sizeOf x + sizeOf tl

/-- Fuel sufficient for `parsePairs` on a nonempty object body. -/
def rankO : JsonVal → JObj → Nat
  | v, .nil => 1 + rankV v
  | v, .cons _ v' tl => 1 + max (rankV v) (rankO v' tl)
termination_by v tl => sizeOf v + sizeOf tl
end

theorem rankV_pos (v : JsonVal) : 1 ≤ rankV v := by
  cases v with
  | null => simp [rankV]
  | bool b => simp [rankV]
  | num n => simp [rankV]
  | str s => simp [rankV]
  | arr xs => cases xs <;> simp [rankV]
  | obj kvs => cases kvs <;> simp [rankV]

theorem numStop_nil : numStop [] := trivial

theorem numStop_cons {c : Char} (l : List Char) (h1 : c.isDigit = false)
    (h2 : c ≠ '.') (h3 : c ≠ 'e') (h4 : c ≠ 'E') : numStop (c :: l) :=
  ⟨h1, h2, h3, h4⟩

theorem dumpNum_head (n : JNum) :
    ∃ c l, dumpNum n = c :: l ∧ (c = '-' ∨ c.isDigit = true) := by
  obtain ⟨c0, tl0, hct⟩ : ∃ c0 tl0, natChars n.m.natAbs = c0 :: tl0 := by
    cases hc0 : natChars n.m.natAbs with
    | nil => exact absurd hc0 (natChars_ne_nil _)
    | cons c0 tl0 => exact ⟨c0, tl0, rfl⟩
  have hcd : c0.isDigit = true := by
    apply natChars_all_digits n.m.natAbs
    rw [hct]
    exact List.mem_cons_self c0 tl0
  by_cases hm : n.m < 0
  · by_cases he : n.e = 0
    · exact ⟨'-', natChars n.m.natAbs, by simp [dumpNum, he, hm], Or.inl rfl⟩
    · rw [dumpNum_eq_frac n he, if_pos hm]
      exact ⟨'-', _, rfl, Or.inl rfl⟩
  · by_cases he : n.e = 0
    · refine ⟨c0, tl0, ?_, Or.inr hcd⟩
      rw [show dumpNum n = natChars n.m.natAbs from by simp [dumpNum, he, hm], hct]
    · rw [dumpNum_eq_frac n he]
      simp only [if_neg hm, List.nil_append]
      cases hm0 : n.e + 1 - (natChars n.m.natAbs).length with
      | zero =>
        have hlen : n.e + 1 ≤ (natChars n.m.natAbs).length := by omega
        obtain ⟨k, hk⟩ : ∃ k,
            (List.replicate 0 '0' ++ natChars n.m.natAbs).length - n.e = k + 1 := by
          refine ⟨(List.replicate 0 '0' ++ natChars n.m.natAbs).length - n.e - 1, ?_⟩
          simp only [List.replicate_zero, List.nil_append]
          omega
        rw [hk]
        simp only [List.replicate_zero, List.nil_append]
        rw [hct, List.take_succ_cons, List.cons_append]
        exact ⟨c0, _, rfl, Or.inr hcd⟩
      | succ m0 =>
        obtain ⟨k, hk⟩ : ∃ k,
            (List.replicate (m0 + 1) '0' ++ natChars n.m.natAbs).length - n.e
              = k + 1 := by
          refine ⟨(List.replicate (m0 + 1) '0' ++ natChars n.m.natAbs).length -
            n.e - 1, ?_⟩
          have : (List.replicate (m0 + 1) '0' ++ natChars n.m.natAbs).length =
              m0 + 1 + (natChars n.m.natAbs).length := by
            simp [List.length_append, List.length_replicate]
          omega
        rw [hk, List.replicate_succ, List.cons_append, List.take_succ_cons,
          List.cons_append]
        exact ⟨'0', _, rfl, Or.inr (by decide)⟩

theorem dumpV_head (v : JsonVal) : ∃ c l, dumpV v = c :: l ∧ dumpHeadOk c := by
  cases v with
  | null => exact ⟨'n', ['u', 'l', 'l'], by simp [dumpV]; rfl, Or.inl rfl⟩
  | bool b =>
    cases b
    · exact ⟨'f', ['a', 'l', 's', 'e'], by simp [dumpV]; rfl,
        Or.inr (Or.inr (Or.inl rfl))⟩
    · exact ⟨'t', ['r', 'u', 'e'], by simp [dumpV]; rfl, Or.inr (Or.inl rfl)⟩
  | num n =>
    obtain ⟨c, l, hcl, hc⟩ := dumpNum_head n
    refine ⟨c, l, by simp [dumpV, hcl], ?_⟩
    rcases hc with rfl | hd
    · exact Or.inr (Or.inr (Or.inr (Or.inr (Or.inr (Or.inr (Or.inl rfl))))))
    · exact Or.inr (Or.inr (Or.inr (Or.inr (Or.inr (Or.inr (Or.inr hd))))))
  | str s =>
    exact ⟨'"', s.flatMap escChar ++ ['"'], by simp [dumpV, dumpStr],
      Or.inr (Or.inr (Or.inr (Or.inl rfl)))⟩
  | arr xs =>
    cases xs with
    | nil =>
      exact ⟨'[', [']'], by simp [dumpV],
        Or.inr (Or.inr (Or.inr (Or.inr (Or.inl rfl))))⟩
    | cons x tl =>
      exact ⟨'[', dumpItems x tl ++ [']'], by simp [dumpV],
        Or.inr (Or.inr (Or.inr (Or.inr (Or.inl rfl))))⟩
  | obj kvs =>
    cases kvs with
    | nil =>
      exact ⟨'\x7b', ['\x7d'], by simp [dumpV, lbrace, rbrace],
        Or.inr (Or.inr (Or.inr (Or.inr (Or.inr (Or.inl rfl)))))⟩
    | cons k v tl =>
      exact ⟨'\x7b', dumpPairs k v tl ++ ['\x7d'], by simp [dumpV, lbrace, rbrace],
        Or.inr (Or.inr (Or.inr (Or.inr (Or.inr (Or.inl rfl)))))⟩

theorem dumpItems_eq (x : JsonVal) (tl : JList) :
    ∃ t, dumpItems x tl = dumpV x ++ t := by
  cases tl with
  | nil => exact ⟨[], by simp [dumpItems]⟩
  | cons y tl2 => exact ⟨',' :: ' ' :: dumpItems y tl2, by simp [dumpItems]⟩

theorem dumpPairs_quote (k : List Char) (v : JsonVal) (tl : JObj) :
    ∃ t, dumpPairs k v tl = '"' :: t := by
  cases tl with
  | nil =>
    exact ⟨(k.flatMap escChar ++ ['"']) ++ ':' :: ' ' :: dumpV v,
      by simp [dumpPairs, dumpStr]⟩
  | cons k2 v2 tl2 =>
    exact ⟨(k.flatMap escChar ++ ['"']) ++
      (':' :: ' ' :: dumpV v ++ ',' :: ' ' :: dumpPairs k2 v2 tl2),
      by simp [dumpPairs, dumpStr]⟩

mutual

/-- Round trip: parsing the serialization of a value (with enough fuel and a
follower that cannot extend a number token) recovers the value exactly. -/
theorem parseVal_dumpV (fuel : Nat) (v : JsonVal) (rest : List Char)
    (hf : rankV v ≤ fuel) (hrest : numStop rest) :
    parseVal fuel (dumpV v ++ rest) = some (v, rest) := by
  obtain ⟨f, rfl⟩ : ∃ f, fuel = f + 1 :=
    ⟨fuel - 1, by have := rankV_pos v; omega⟩
  cases v with
  | null =>
    rw [show dumpV .null = ['n', 'u', 'l', 'l'] from by simp [dumpV]; rfl]
    exact parseVal_null f rest
  | bool b =>
    cases b with
    | false =>
      rw [show dumpV (.bool false) = ['f', 'a', 'l', 's', 'e'] from by
        simp [dumpV]; rfl]
      exact parseVal_false f rest
    | true =>
      rw [show dumpV (.bool true) = ['t', 'r', 'u', 'e'] from by
        simp [dumpV]; rfl]
      exact parseVal_true f rest
  | num n =>
    obtain ⟨c, l, hcl, hc⟩ := dumpNum_head n
    rw [show dumpV (.num n) = dumpNum n from by simp [dumpV], hcl,
      List.cons_append, parseVal_num f _ hc, ← List.cons_append, ← hcl]
    exact parseNum_dumpNum n rest hrest
  | str s =>
    rw [show dumpV (.str s) = '"' :: (s.flatMap escChar ++ ['"'])
      from by simp [dumpV, dumpStr], List.cons_append, parseVal_str,
      List.append_assoc, List.singleton_append, parseStrB_escBody]
    rfl
  | arr xs =>
    cases xs with
    | nil =>
      rw [show dumpV (.arr .nil) = ['[', ']'] from by simp [dumpV]]
      exact parseVal_arr_nil f rest
    | cons x tl =>
      have hrk : rankL x tl ≤ f := by
        simp only [rankV] at hf; omega
      obtain ⟨t, ht⟩ := dumpItems_eq x tl
      obtain ⟨c, l, hcl, hc⟩ := dumpV_head x
      have hsplit : dumpItems x tl ++ ']' :: rest =
          c :: (l ++ (t ++ ']' :: rest)) := by
        rw [ht, hcl, List.append_assoc, List.cons_append]
      rw [show dumpV (.arr (.cons x tl)) = '[' :: (dumpItems x tl ++ [']'])
        from by simp [dumpV], List.cons_append, List.append_assoc,
        List.singleton_append, hsplit, parseVal_arr_cons f _ hc, ← hsplit,
        parseItems_dump f x tl rest hrk]
      rfl
  | obj kvs =>
    cases kvs with
    | nil =>
      rw [show dumpV (.obj .nil) = ['\x7b', '\x7d'] from by
        simp [dumpV, lbrace, rbrace]]
      exact parseVal_obj_nil f rest
    | cons k v tl =>
      have hrk : rankO v tl ≤ f := by
        simp only [rankV] at hf; omega
      obtain ⟨t, ht⟩ := dumpPairs_quote k v tl
      have hsplit : dumpPairs k v tl ++ '\x7d' :: rest =
          '"' :: (t ++ '\x7d' :: rest) := by
        rw [ht, List.cons_append]
      rw [show dumpV (.obj (.cons k v tl)) =
          '\x7b' :: (dumpPairs k v tl ++ ['\x7d']) from by
        simp [dumpV, lbrace, rbrace], List.cons_append, List.append_assoc,
        List.singleton_append, hsplit, parseVal_obj_quote f _, ← hsplit,
        parsePairs_dump f k v tl rest hrk]
      rfl
termination_by sizeOf v

/-- Round trip for the comma-joined items of a nonempty array. -/
theorem parseItems_dump (fuel : Nat) (x : JsonVal) (tl : JList)
    (rest : List Char) (hf : rankL x tl ≤ fuel) :
    parseItems fuel (dumpItems x tl ++ ']' :: rest) =
      some (.cons x tl, rest) := by
  cases tl with
  | nil =>
    have h1 : 1 + rankV x ≤ fuel := by simpa [rankL] using hf
    obtain ⟨f, rfl⟩ : ∃ f, fuel = f + 1 := ⟨fuel - 1, by omega⟩
    have hv := parseVal_dumpV f x (']' :: rest) (by omega)
      (numStop_cons _ (by decide) (by decide) (by decide) (by decide))
    have hsw : ∀ l : List Char, skipWs (']' :: l) = ']' :: l :=
      fun l => @skipWs_cons_not ']' l rfl
    rw [show dumpItems x .nil = dumpV x from by simp [dumpItems]]
    simp only [parseItems, hv, hsw]
  | cons y tl2 =>
    have h1 : 1 + max (rankV x) (rankL y tl2) ≤ fuel := by simpa [rankL] using hf
    obtain ⟨f, rfl⟩ : ∃ f, fuel = f + 1 := ⟨fuel - 1, by omega⟩
    have hv := parseVal_dumpV f x
      (',' :: ' ' :: (dumpItems y tl2 ++ ']' :: rest)) (by omega)
      (numStop_cons _ (by decide) (by decide) (by decide) (by decide))
    have hsw : ∀ l : List Char, skipWs (',' :: l) = ',' :: l :=
      fun l => @skipWs_cons_not ',' l rfl
    have hpw : ∀ l : List Char, parseItems f (' ' :: l) = parseItems f l :=
      fun l => @parseItems_cons_ws ' ' f l rfl
    have hrec := parseItems_dump f y tl2 rest (by omega)
    rw [show dumpItems x (.cons y tl2) ++ ']' :: rest =
        dumpV x ++ (',' :: ' ' :: (dumpItems y tl2 ++ ']' :: rest)) from by
      simp [dumpItems]]
    simp only [parseItems, hv, hsw, hpw, hrec]
termination_by sizeOf x + sizeOf tl

/-- Round trip for the comma-joined members of a nonempty object. -/
theorem parsePairs_dump (fuel : Nat) (k : List Char) (v : JsonVal) (tl : JObj)
    (rest : List Char) (hf : rankO v tl ≤ fuel) :
    parsePairs fuel (dumpPairs k v tl ++ '\x7d' :: rest) =
      some (.cons k v tl, rest) := by
  cases tl with
  | nil =>
    have h1 : 1 + rankV v ≤ fuel := by simpa [rankO] using hf
    obtain ⟨f, rfl⟩ : ∃ f, fuel = f + 1 := ⟨fuel - 1, by omega⟩
    have hk := parseStrB_escBody k (':' :: ' ' :: (dumpV v ++ '\x7d' :: rest))
    have hv := parseVal_dumpV f v ('\x7d' :: rest) (by omega)
      (numStop_cons _ (by decide) (by decide) (by decide) (by decide))
    have hswq : ∀ l : List Char, skipWs ('"' :: l) = '"' :: l :=
      fun l => @skipWs_cons_not '"' l rfl
    have hswc : ∀ l : List Char, skipWs (':' :: l) = ':' :: l :=
      fun l => @skipWs_cons_not ':' l rfl
    have hswb : ∀ l : List Char, skipWs ('\x7d' :: l) = '\x7d' :: l :=
      fun l => @skipWs_cons_not '\x7d' l rfl
    have hvw : ∀ l : List Char, parseVal f (' ' :: l) = parseVal f l :=
      fun l => @parseVal_cons_ws ' ' f l rfl
    rw [show dumpPairs k v .nil ++ '\x7d' :: rest =
        '"' :: (k.flatMap escChar ++
          ('"' :: (':' :: ' ' :: (dumpV v ++ '\x7d' :: rest)))) from by
      simp [dumpPairs, dumpStr]]
    simp only [parsePairs, hswq, hk, hswc, hvw, hv, hswb]
  | cons k2 v2 tl2 =>
    have h1 : 1 + max (rankV v) (rankO v2 tl2) ≤ fuel := by simpa [rankO] using hf
    obtain ⟨f, rfl⟩ : ∃ f, fuel = f + 1 := ⟨fuel - 1, by omega⟩
    have hk := parseStrB_escBody k (':' :: ' ' ::
      (dumpV v ++ ',' :: ' ' :: (dumpPairs k2 v2 tl2 ++ '\x7d' :: rest)))
    have hv := parseVal_dumpV f v
      (',' :: ' ' :: (dumpPairs k2 v2 tl2 ++ '\x7d' :: rest)) (by omega)
      (numStop_cons _ (by decide) (by decide) (by decide) (by decide))
    have hswq : ∀ l : List Char, skipWs ('"' :: l) = '"' :: l :=
      fun l => @skipWs_cons_not '"' l rfl
    have hswc : ∀ l : List Char, skipWs (':' :: l) = ':' :: l :=
      fun l => @skipWs_cons_not ':' l rfl
    have hswm : ∀ l : List Char, skipWs (',' :: l) = ',' :: l :=
      fun l => @skipWs_cons_not ',' l rfl
    have hvw : ∀ l : List Char, parseVal f (' ' :: l) = parseVal f l :=
      fun l => @parseVal_cons_ws ' ' f l rfl
    have hpw : ∀ l : List Char, parsePairs f (' ' :: l) = parsePairs f l :=
      fun l => @parsePairs_cons_ws ' ' f l rfl
    have hrec := parsePairs_dump f k2 v2 tl2 rest (by omega)
    rw [show dumpPairs k v (.cons k2 v2 tl2) ++ '\x7d' :: rest =
        '"' :: (k.flatMap escChar ++ ('"' :: (':' :: ' ' ::
          (dumpV v ++ ',' :: ' ' ::
            (dumpPairs k2 v2 tl2 ++ '\x7d' :: rest))))) from by
      simp [dumpPairs, dumpStr]]
    simp only [parsePairs, hswq, hk, hswc, hvw, hv, hswm, hpw, hrec]
termination_by sizeOf v + sizeOf tl

end

mutual

/-- The fuel needed by the parser is at most the length of the serialization. -/
theorem rankV_le (v : JsonVal) : rankV v ≤ (dumpV v).length := by
  cases v with
  | null => simp [rankV, dumpV]; decide
  | bool b => cases b <;> (simp [rankV, dumpV]; decide)
  | num n =>
    obtain ⟨c, l, hcl, _⟩ := dumpNum_head n
    simp [rankV, dumpV, hcl]
  | str s =>
    simp [rankV, dumpV, dumpStr]
  | arr xs =>
    cases xs with
    | nil => simp [rankV, dumpV]
    | cons x tl =>
      have h := rankL_le x tl
      simp only [rankV, dumpV, List.length_cons, List.length_append]
      simp at h ⊢
      omega
  | obj kvs =>
    cases kvs with
    | nil => simp [rankV, dumpV]
    | cons k v tl =>
      have h := rankO_le k v tl
      simp only [rankV, dumpV, List.length_cons, List.length_append]
      simp at h ⊢
      omega
termination_by sizeOf v

/-- Fuel bound for the items of a nonempty array. -/
theorem rankL_le (x : JsonVal) (tl : JList) :
    rankL x tl ≤ 1 + (dumpItems x tl).length := by
  cases tl with
  | nil =>
    have h := rankV_le x
    simp only [rankL, dumpItems]
    omega
  | cons y tl2 =>
    have h1 := rankV_le x
    have h2 := rankL_le y tl2
    simp only [rankL, dumpItems, List.length_append, List.length_cons]
    omega
termination_by sizeOf x + sizeOf tl

/-- Fuel bound for the members of a nonempty object. -/
theorem rankO_le (k : List Char) (v : JsonVal) (tl : JObj) :
    rankO v tl ≤ 1 + (dumpPairs k v tl).length := by
  cases tl with
  | nil =>
    have h := rankV_le v
    simp only [rankO, dumpPairs, List.length_append, List.length_cons]
    omega
  | cons k2 v2 tl2 =>
    have h1 := rankV_le v
    have h2 := rankO_le k2 v2 tl2
    simp only [rankO, dumpPairs, List.length_append, List.length_cons]
    omega
termination_by sizeOf v + sizeOf tl

end

/-- The modelled `json.loads` inverts the modelled `json.dumps` exactly. -/
theorem jsonLoads_dumpV (v : JsonVal) : jsonLoads (dumpV v) = some v := by
  have h := parseVal_dumpV (2 * (dumpV v).length + 2) v []
    (by have := rankV_le v; omega) numStop_nil
  rw [List.append_nil] at h
  unfold jsonLoads
  rw [h]
  rfl

/-- Appending a row whose key strictly dominates every present key sorts to
the front: the model of `ORDER BY key DESC` returning the newest row first. -/
theorem sortDescBy_append_max {α : Type} (key : α → List Char) (x : α)
    (l : List α) (h : ∀ y ∈ l, lexLt (key y) (key x) = true) :
    sortDescBy key (l ++ [x]) = x :: sortDescBy key l := by
  induction l with
  | nil => rfl
  | cons y tl ih =>
    have hy := h y (List.mem_cons_self y tl)
    have ih' := ih (fun z hz => h z (List.mem_cons_of_mem y hz))
    rw [List.cons_append]
    simp only [sortDescBy]
    rw [ih']
    simp only [insertDescBy, hy, if_true]

/-- C8: saving a trend result whose details is a non-empty mapping via
`guardar_analisis_tendencia` and reading the latest record back through
`obtener_ultimas_tendencias` with limit 1 yields an equal details mapping
(provided the new row's `fecha` orders after the existing ones, as the wall
clock guarantees); a NULL or empty stored payload decodes as the empty
mapping. -/
theorem C8_details_round_trip :
    (∀ (s : DBState) (a : Analisis) (periodo : Option (List Char))
       (ts : List Char),
      (∀ t ∈ s.tendencias, lexLt t.fecha ts = true) →
      (∃ k v kvs, a.detalles = JsonVal.obj (JObj.cons k v kvs)) →
      ∃ d, obtener_ultimas_tendencias
          (guardar_analisis_tendencia s a periodo ts).1 1 = .ok [d] ∧
        d.detalles = a.detalles) ∧
    (∀ p : Option (List Char), p = none ∨ p = some [] →
      decodeDetalles p = .ok (.obj .nil)) := by
  constructor
  · intro s a periodo ts hmax _hne
    refine ⟨⟨s.tendencias.length + 1, ts,
      periodo.getD (chars "últimas 24 horas"), a.tendencia, a.recomendacion,
      a.probabilidad_fuga, a.detalles⟩, ?_, rfl⟩
    show decodeRows ((sortDescBy (fun t : TendRow => t.fecha)
        (s.tendencias ++ [⟨s.tendencias.length + 1, ts,
          periodo.getD (chars "últimas 24 horas"), a.tendencia,
          a.recomendacion, a.probabilidad_fuga,
          some (dumpV a.detalles)⟩])).take 1) =
      Except.ok [⟨s.tendencias.length + 1, ts,
        periodo.getD (chars "últimas 24 horas"), a.tendencia, a.recomendacion,
        a.probabilidad_fuga, a.detalles⟩]
    rw [sortDescBy_append_max _ _ _ hmax]
    simp only [List.take_succ_cons, List.take_zero]
    obtain ⟨c, l, hcl, _⟩ := dumpV_head a.detalles
    have hj := jsonLoads_dumpV a.detalles
    rw [hcl] at hj
    simp only [decodeRows, decodeDetalles, hcl, hj]
  · intro p hp
    rcases hp with rfl | rfl <;> rfl

/-- C8 at a concrete input: one saved analysis with details
`\x7b"k": 1\x7d` reads back unchanged via latest(1). -/
theorem C8_details_round_trip_witness :
    ∃ d, obtener_ultimas_tendencias
        (guardar_analisis_tendencia initialDB
          ⟨JsonVal.str (chars "baja"), 0, JsonVal.str (chars "ok"),
           JsonVal.obj (JObj.cons (chars "k") (JsonVal.num ⟨1, 0⟩) JObj.nil)⟩
          none (chars "2024-01-01T00:00:00")).1 1 = .ok [d] ∧
      d.detalles =
        JsonVal.obj (JObj.cons (chars "k") (JsonVal.num ⟨1, 0⟩) JObj.nil) :=
  C8_details_round_trip.1 initialDB _ none _
    (fun t ht => absurd ht (List.not_mem_nil t))
    ⟨chars "k", JsonVal.num ⟨1, 0⟩, JObj.nil, rfl⟩

/-! ### The service variant embedded at the end of src/logic.py: its own
`DatabaseManager` (no trigger counters), the `ReasoningSystem` response
builder (which returns a dict on every path), and the background analysis
task that applies `re.search` to that dict. -/

/-- Python dict assignment `d[k] = x`: replace the value at an existing key
in place, otherwise append the binding. -/
def objSet : JObj → List Char → JsonVal → JObj
  | .nil, k, x => .cons k x .nil
  | .cons k' v' tl, k, x =>
    if k' = k then .cons k' x tl else .cons k' v' (objSet tl k x)

/-- Key membership in a dict. -/
def objHasKey : JObj → List Char → Bool
  | .nil, _ => false
  | .cons k' _ tl, k => if k' = k then true else objHasKey tl k

/-- Membership of the string `k` among the items of a list. -/
def jlistHasStr : JList → List Char → Bool
  | .nil, _ => false
  | .cons x tl, k => if x = JsonVal.str k then true else jlistHasStr tl k

/-- Whether `k` is an initial segment of the second list. -/
def pyPre : List Char → List Char → Bool
  | [], _ => true
  | _ :: _, [] => false
  | a :: as, b :: bs => if a = b then pyPre as bs else false

/-- Python substring membership `k in s`. -/
def pySubstr (k : List Char) : List Char → Bool
  | [] => k.isEmpty
  | c :: tl => if pyPre k (c :: tl) then true else pySubstr k tl

/-- Python `k not in v`: key test on a dict, membership on a list, substring
test on a string; a `TypeError` (`none`) on the other values. -/
def pyNotIn (k : List Char) : JsonVal → Option Bool
  | .obj kvs => some (! objHasKey kvs k)
  | .arr xs => some (! jlistHasStr xs k)
  | .str s => some (! pySubstr k s)
  | _ => none

/-- The `metadatos` dict added by `generate_reasoned_response` (src/logic.py
lines 149-155); the elapsed-time rendering is a runtime input. -/
def metadatosL (cycles : Nat) (elapsedRepr modelName : List Char) : JsonVal :=
  .obj (.cons (chars "modelo") (.str modelName)
    (.cons (chars "tiempo_generacion") (.str (elapsedRepr ++ chars " segundos"))
    (.cons (chars "ciclos_solicitados") (.num ⟨(cycles : Int), 0⟩)
    (.cons (chars "temperatura") (.num ⟨7, 1⟩) .nil))))

/-- The structured fallback built when the model's text is not valid JSON
(src/logic.py lines 135-146). -/
def fallbackDictL (respText : List Char) : JsonVal :=
  .obj (.cons (chars "razonamiento")
      (.arr (.cons (.obj (.cons (chars "ciclo") (.num ⟨1, 0⟩)
        (.cons (chars "análisis")
          (.str (chars "El modelo no estructuró la respuesta en el formato solicitado"))
          .nil))) .nil))
    (.cons (chars "respuesta_final") (.str respText)
    (.cons (chars "formato_original") (.str (chars "texto_plano")) .nil)))

/-- The replacement dict built when the parsed JSON lacks both expected keys
(src/logic.py lines 121-133). -/
def processedRespL (respText : List Char) : JsonVal :=
  .obj (.cons (chars "razonamiento")
      (.arr (.cons (.obj (.cons (chars "ciclo") (.num ⟨1, 0⟩)
        (.cons (chars "análisis")
          (.str (chars "Procesamiento directo sin ciclos explícitos")) .nil)))
        .nil))
    (.cons (chars "respuesta_final") (.str respText) .nil))

/-- The dict returned by the outer `except` handler (src/logic.py lines
164-168). -/
def errorDictL (msg : List Char) : JsonVal :=
  .obj (.cons (chars "error") (.str msg)
    (.cons (chars "respuesta_final")
      (.str (chars "Error al generar respuesta: " ++ msg)) .nil))

/-- `result["metadatos"] = {...}`: succeeds on a dict, raises a `TypeError`
(`none`) on anything else. -/
def addMetaL (cycles : Nat) (elapsedRepr modelName : List Char) :
    JsonVal → Option JsonVal
  | .obj kvs =>
    some (.obj (objSet kvs (chars "metadatos")
      (metadatosL cycles elapsedRepr modelName)))
  | _ => none

/-- The body of the `try` in `generate_reasoned_response` (src/logic.py lines
78-161) after a model response `respText` arrived: extract and parse the
JSON-looking slice (parse failures fall back to the structured dict), replace
a result lacking both expected keys, and attach the metadata.  `none` models
an exception the inner `except (JSONDecodeError, ValueError)` does not
catch — the `TypeError` raised by `in` or by the metadata assignment on a
non-dict result. -/
def genReasonedTryL (cycles : Nat) (elapsedRepr modelName respText : List Char) :
    Option JsonVal :=
  match jsonCandidate (pyStrip respText) with
  | none => addMetaL cycles elapsedRepr modelName (fallbackDictL respText)
  | some cand =>
    match jsonLoads cand with
    | none => addMetaL cycles elapsedRepr modelName (fallbackDictL respText)
    | some result =>
      match pyNotIn (chars "razonamiento") result with
      | none => none
      | some false => addMetaL cycles elapsedRepr modelName result
      | some true =>
        match pyNotIn (chars "respuesta_final") result with
        | none => none
        | some b2 =>
          addMetaL cycles elapsedRepr modelName
            (if b2 then processedRespL respText else result)

/-- `ReasoningSystem.generate_reasoned_response` (src/logic.py lines 66-168):
the network call either raises (`.error`, absorbed by the outer handler) or
produces text; any in-`try` exception also reaches the outer handler, whose
message `exMsg` abstracts `str(e)`.  Every path returns a dict. -/
def generate_reasoned_responseL (cycles : Nat)
    (elapsedRepr modelName exMsg : List Char)
    (resp : Except (List Char) (List Char)) : JsonVal :=
  match resp with
  | .error e => errorDictL e
  | .ok text =>
    match genReasonedTryL cycles elapsedRepr modelName text with
    | some r => r
    | none => errorDictL exMsg

/-- `re.search(chr(92) ++ chr(123) ++ ".*" ++ chr(92) ++ chr(125), x,
re.DOTALL)` as used on src/logic.py line 560: on a string the greedy
dot-all pattern spans the first `\x7b` to the last `\x7d` (the same slice as
`find`/`rfind`); on any other value `re.search` raises a `TypeError`. -/
def reSearchBracesL : JsonVal → Except PyErr (Option (List Char))
  | .str s => .ok (jsonCandidate s)
  | _ => .error .typeErr

/-- A row of `tendencias_analisis` as inserted by the logic.py
`guardar_analisis_tendencia` (src/logic.py lines 464-487). -/
structure LTendRow where
  fecha : List Char
  periodo : JsonVal
  tendencia : JsonVal
  recomendacion : JsonVal
  probabilidad_fuga : JsonVal
  detalles : List Char
deriving DecidableEq

/-- The database state of the logic.py service: its `DatabaseManager` keeps
no trigger counters. -/
structure LDBState where
  registros : List Registro
  tendencias : List LTendRow
deriving DecidableEq

/-- `DatabaseManager.guardar_flujo` of src/logic.py (lines 380-400). -/
def guardar_flujoL (s : LDBState) (flujo : Rat) (ts : List Char)
    (analisis : Option (List Char)) : LDBState × Registro :=
  let reg : Registro := ⟨s.registros.length + 1, flujo, ts, analisis⟩
  ({ s with registros := s.registros ++ [reg] }, reg)

/-- `DatabaseManager.obtener_historial` of src/logic.py (lines 401-416). -/
def obtener_historialL (s : LDBState) (limite offset : Nat) : List Registro :=
  ((sortDescBy (fun r => r.timestamp) s.registros).drop offset).take limite

/-- `DatabaseManager.guardar_analisis_tendencia` of src/logic.py (lines
464-487): every field read with `.get` and its default, details serialized
with `json.dumps`. -/
def guardar_analisis_tendenciaL (s : LDBState) (analisis : JObj)
    (ts : List Char) : LDBState :=
  let row : LTendRow :=
    { fecha := ts
      periodo := (pyGet analisis (chars "periodo")).getD (.str (chars "24h"))
      tendencia := (pyGet analisis (chars "tendencia")).getD (.str [])
      recomendacion := (pyGet analisis (chars "recomendacion")).getD (.str [])
      probabilidad_fuga :=
        (pyGet analisis (chars "probabilidad_fuga")).getD (.num ⟨0, 1⟩)
      detalles := dumpV ((pyGet analisis (chars "detalles")).getD (.obj .nil)) }
  { s with tendencias := s.tendencias ++ [row] }

/-- The background task `analizar_datos_flujo` of src/logic.py (lines
528-584): empty input returns `None`; otherwise the reasoned response (a
dict) is fed to `re.search`, whose `TypeError` the `except` turns into
`None`; only a successful regex-extract-parse path (with the `periodo` key
added) would reach `guardar_analisis_tendencia`. -/
def analizar_datos_flujoL (s : LDBState) (registros : List Registro)
    (cycles : Nat) (elapsedRepr modelName exMsg ts : List Char)
    (resp : Except (List Char) (List Char)) : LDBState × Option JsonVal :=
  if registros = [] then (s, none)
  else
    let resultado := generate_reasoned_responseL cycles elapsedRepr modelName
      exMsg resp
    match reSearchBracesL resultado with
    | .error _ => (s, none)
    | .ok none => (s, none)
    | .ok (some jsonText) =>
      match jsonLoads jsonText with
      | none => (s, none)
      | some analisis =>
        match analisis with
        | .obj kvs =>
          let periodoVal : JsonVal :=
            if 24 < registros.length then .str (chars "últimas 24 horas")
            else .str (chars "últimos " ++ natChars registros.length ++
              chars " registros")
          let kvs2 := objSet kvs (chars "periodo") periodoVal
          (guardar_analisis_tendenciaL s kvs2 ts, some (.obj kvs2))
        | _ => (s, none)

/-- The `/flujo` endpoint `recibir_flujo` of src/logic.py (lines 590-607):
save the reading, fetch at most 48 recent records, and schedule the analysis
task only when at least 100 were fetched.  The boolean reports whether the
task was scheduled. -/
def recibir_flujoL (s : LDBState) (flujo : Rat) (ts : List Char) :
    LDBState × Bool :=
  let p := guardar_flujoL s flujo ts none
  let ultimos := obtener_historialL p.1 48 0
  (p.1, decide (100 ≤ ultimos.length))

theorem addMetaL_isObj {cycles : Nat} {e m : List Char} {v r : JsonVal}
    (h : addMetaL cycles e m v = some r) : ∃ kvs, r = JsonVal.obj kvs := by
  cases v <;>
    first
      | (simp only [addMetaL, Option.some.injEq] at h; exact ⟨_, h.symm⟩)
      | simp [addMetaL] at h

theorem genReasonedTryL_isObj {cycles : Nat} {e m t : List Char} {r : JsonVal}
    (h : genReasonedTryL cycles e m t = some r) : ∃ kvs, r = JsonVal.obj kvs := by
  unfold genReasonedTryL at h
  cases hc : jsonCandidate (pyStrip t) with
  | none =>
    simp only [hc] at h
    exact addMetaL_isObj h
  | some cand =>
    simp only [hc] at h
    cases hl : jsonLoads cand with
    | none =>
      simp only [hl] at h
      exact addMetaL_isObj h
    | some result =>
      simp only [hl] at h
      cases hn1 : pyNotIn (chars "razonamiento") result with
      | none =>
        simp only [hn1] at h
        exact Option.noConfusion h
      | some b1 =>
        simp only [hn1] at h
        cases b1 with
        | false => exact addMetaL_isObj h
        | true =>
          cases hn2 : pyNotIn (chars "respuesta_final") result with
          | none =>
            simp only [hn2] at h
            exact Option.noConfusion h
          | some b2 =>
            simp only [hn2] at h
            exact addMetaL_isObj h

theorem generate_reasoned_responseL_isObj (cycles : Nat)
    (elapsedRepr modelName exMsg : List Char)
    (resp : Except (List Char) (List Char)) :
    ∃ kvs, generate_reasoned_responseL cycles elapsedRepr modelName exMsg resp
      = JsonVal.obj kvs := by
  cases resp with
  | error e => exact ⟨_, rfl⟩
  | ok text =>
    cases hg : genReasonedTryL cycles elapsedRepr modelName text with
    | none =>
      have hrw : generate_reasoned_responseL cycles elapsedRepr modelName
          exMsg (Except.ok text) = errorDictL exMsg := by
        simp only [generate_reasoned_responseL, hg]
      rw [hrw]
      exact ⟨_, rfl⟩
    | some r =>
      have hrw : generate_reasoned_responseL cycles elapsedRepr modelName
          exMsg (Except.ok text) = r := by
        simp only [generate_reasoned_responseL, hg]
      rw [hrw]
      exact genReasonedTryL_isObj hg

/-- C10: in the logic.py service variant no trend analysis is ever
persisted: the `/flujo` endpoint fetches at most 48 records and so never
passes its `>= 100` scheduling gate, and the analysis task applies
`re.search` to the dict `generate_reasoned_response` always returns, whose
`TypeError` the handler turns into `None` before any row is written — the
task leaves the state unchanged on every input. -/
theorem C10_no_trend_persisted :
    (∀ (s : LDBState) (flujo : Rat) (ts : List Char),
        (recibir_flujoL s flujo ts).2 = false) ∧
    (∀ (s : LDBState) (registros : List Registro) (cycles : Nat)
        (elapsedRepr modelName exMsg ts : List Char)
        (resp : Except (List Char) (List Char)),
        analizar_datos_flujoL s registros cycles elapsedRepr modelName exMsg
          ts resp = (s, none)) := by
  constructor
  · intro s flujo ts
    simp only [recibir_flujoL, obtener_historialL, decide_eq_false_iff_not]
    intro h
    have hle := List.length_take_le 48
      ((sortDescBy (fun r => r.timestamp)
        (guardar_flujoL s flujo ts none).1.registros).drop 0)
    omega
  · intro s registros cycles elapsedRepr modelName exMsg ts resp
    obtain ⟨kvs, hk⟩ := generate_reasoned_responseL_isObj cycles elapsedRepr
      modelName exMsg resp
    by_cases hreg : registros = []
    · simp [analizar_datos_flujoL, hreg]
    · simp only [analizar_datos_flujoL, if_neg hreg, hk, reSearchBracesL]

end ArduinoBack
